import Mathlib

/-!
# Verification of the scheduler's synchronization/merge engine

Shallow embedding of the data model and operations of the `sum37/scheduler`
repository (the revision of `FirebaseContext.tsx` that carries a `currentUser`
identity, together with `store.ts`, `types.ts`, and the view handlers in
`MonthlyView.tsx`, `DailyView.tsx` and the weekly view).

JavaScript `number` fields (`hour`, `order`) are embedded as `Int`; string
fields as `String`; optional/`undefined`-able fields (`userId?`, `userName?`,
`userColor?`, `time?`, `note?`) and nullable fields (`categoryId`) as
`Option String`.  Fractional hours in the quick-schedule parser are embedded
as exact rationals (`ℚ`); IEEE-754 rounding of `parseFloat` is outside the
scope of this embedding.
-/

namespace Scheduler

/-! ## Entity types (src/types.ts) -/

structure User where
  id : String
  name : String
  color : String
deriving DecidableEq, Repr

structure Category where
  id : String
  name : String
  color : String
  icon : String
deriving DecidableEq, Repr

structure TimeBlock where
  id : String
  date : String
  hour : Int
  categoryId : Option String
  note : String
  userId : Option String := none
  userName : Option String := none
  userColor : Option String := none
deriving DecidableEq, Repr

structure Todo where
  id : String
  date : String
  text : String
  completed : Bool
  order : Int
  userId : Option String := none
  userName : Option String := none
  userColor : Option String := none
deriving DecidableEq, Repr

structure Event where
  id : String
  date : String
  title : String
  time : Option String := none
  note : Option String := none
  userId : Option String := none
  userName : Option String := none
  userColor : Option String := none
deriving DecidableEq, Repr

structure WeeklyGoal where
  id : String
  weekStart : String
  text : String
  completed : Bool
  order : Int
  userId : Option String := none
  userName : Option String := none
  userColor : Option String := none
deriving DecidableEq, Repr

/-! ## Generic association lists

Document collections (`rooms/{code}/{collection}/{docId}`) are embedded as
association lists from document id to record; `setDoc` is replace-or-create
and `deleteDoc` removes by id. -/

namespace AList

def get? {β : Type} (k : String) : List (String × β) → Option β
  | [] => none
  | (k', v) :: rest => if k' = k then some v else get? k rest

def upsert {β : Type} (k : String) (v : β) : List (String × β) → List (String × β)
  | [] => [(k, v)]
  | (k', v') :: rest => if k' = k then (k, v) :: rest else (k', v') :: upsert k v rest

def erase {β : Type} (k : String) (l : List (String × β)) : List (String × β) :=
  l.filter (fun p => ¬ (p.1 = k))

end AList

/-! ## Local store collection operations (src/store.ts)

`store.ts` reads the whole collection, mutates it, and saves it back.  The
list-level effect of each operation is embedded here; the JSON serialization
layer used by `loadFromStorage`/`saveToStorage` is embedded separately below.

`updateTimeBlock` uses `findIndex` and either assigns in place or pushes:
replace-first-by-id-or-append.  `updateTodo`/`updateEvent`/`updateWeeklyGoal`
only save when `findIndex` succeeds: replace-first-by-id-or-leave-unchanged. -/

namespace localStore

def updateTimeBlock (block : TimeBlock) : List TimeBlock → List TimeBlock
  | [] => [block]
  | b :: bs => if b.id = block.id then block :: bs else b :: updateTimeBlock block bs

def addTodo (todo : Todo) (todos : List Todo) : List Todo :=
  todos ++ [todo]

def updateTodo (todo : Todo) : List Todo → List Todo
  | [] => []
  | t :: ts => if t.id = todo.id then todo :: ts else t :: updateTodo todo ts

def deleteTodo (id : String) (todos : List Todo) : List Todo :=
  todos.filter (fun t => ¬ (t.id = id))

def addEvent (event : Event) (events : List Event) : List Event :=
  events ++ [event]

def updateEvent (event : Event) : List Event → List Event
  | [] => []
  | e :: es => if e.id = event.id then event :: es else e :: updateEvent event es

def deleteEvent (id : String) (events : List Event) : List Event :=
  events.filter (fun e => ¬ (e.id = id))

def addWeeklyGoal (goal : WeeklyGoal) (goals : List WeeklyGoal) : List WeeklyGoal :=
  goals ++ [goal]

def updateWeeklyGoal (goal : WeeklyGoal) : List WeeklyGoal → List WeeklyGoal
  | [] => []
  | g :: gs => if g.id = goal.id then goal :: gs else g :: updateWeeklyGoal goal gs

def deleteWeeklyGoal (id : String) (goals : List WeeklyGoal) : List WeeklyGoal :=
  goals.filter (fun g => ¬ (g.id = id))

end localStore

/-! ## Durable local collections and the published view -/

structure StoreData where
  categories : List Category
  timeBlocks : List TimeBlock
  todos : List Todo
  events : List Event
  weeklyGoals : List WeeklyGoal
deriving DecidableEq, Repr

/-- The `CalendarData` view published by the provider (`data` state). -/
structure CalendarData where
  categories : List Category
  timeBlocks : List TimeBlock
  todos : List Todo
  events : List Event
  weeklyGoals : List WeeklyGoal
deriving DecidableEq, Repr

/-- `setData({categories: localStore.getCategories(), ...})`: the view built
from the local store, as done on provider init and in `leaveRoom`. -/
def dataFromStore (st : StoreData) : CalendarData :=
  ⟨st.categories, st.timeBlocks, st.todos, st.events, st.weeklyGoals⟩

/-! ## Remote store (`rooms/{code}/...`) -/

structure RoomData where
  users : List (String × User) := []
  categories : List (String × Category) := []
  timeBlocks : List (String × TimeBlock) := []
  todos : List (String × Todo) := []
  events : List (String × Event) := []
  weeklyGoals : List (String × WeeklyGoal) := []
deriving DecidableEq, Repr

structure RemoteDB where
  rooms : List (String × RoomData) := []
deriving DecidableEq, Repr

def RemoteDB.room (db : RemoteDB) (code : String) : RoomData :=
  (AList.get? code db.rooms).getD {}

def RemoteDB.modifyRoom (code : String) (f : RoomData → RoomData) (db : RemoteDB) : RemoteDB :=
  { rooms := AList.upsert code (f (db.room code)) db.rooms }

def RemoteDB.setUserDoc (code id : String) (u : User) (db : RemoteDB) : RemoteDB :=
  db.modifyRoom code (fun r => { r with users := AList.upsert id u r.users })

def RemoteDB.setTimeBlockDoc (code id : String) (b : TimeBlock) (db : RemoteDB) : RemoteDB :=
  db.modifyRoom code (fun r => { r with timeBlocks := AList.upsert id b r.timeBlocks })

def RemoteDB.setTodoDoc (code id : String) (t : Todo) (db : RemoteDB) : RemoteDB :=
  db.modifyRoom code (fun r => { r with todos := AList.upsert id t r.todos })

def RemoteDB.deleteTodoDoc (code id : String) (db : RemoteDB) : RemoteDB :=
  db.modifyRoom code (fun r => { r with todos := AList.erase id r.todos })

def RemoteDB.setEventDoc (code id : String) (e : Event) (db : RemoteDB) : RemoteDB :=
  db.modifyRoom code (fun r => { r with events := AList.upsert id e r.events })

def RemoteDB.deleteEventDoc (code id : String) (db : RemoteDB) : RemoteDB :=
  db.modifyRoom code (fun r => { r with events := AList.erase id r.events })

def RemoteDB.setWeeklyGoalDoc (code id : String) (g : WeeklyGoal) (db : RemoteDB) : RemoteDB :=
  db.modifyRoom code (fun r => { r with weeklyGoals := AList.upsert id g r.weeklyGoals })

def RemoteDB.deleteWeeklyGoalDoc (code id : String) (db : RemoteDB) : RemoteDB :=
  db.modifyRoom code (fun r => { r with weeklyGoals := AList.erase id r.weeklyGoals })

/-! ## Provider state (FirebaseContext) -/

/-- Tags for the six active `onSnapshot` subscriptions installed by the
room-listener effect. -/
inductive ListenerTag where
  | users
  | categories
  | timeBlocks
  | todos
  | events
  | weeklyGoals
deriving DecidableEq, Repr

structure AppState where
  currentUser : Option User
  roomCode : Option String
  isConnected : Bool := false
  roomUsers : List User := []
  data : CalendarData
  store : StoreData
  listeners : List ListenerTag := []
  nextId : Nat := 0
deriving DecidableEq, Repr

/-- One device plus the shared remote store. -/
structure World where
  app : AppState
  db : RemoteDB
deriving DecidableEq, Repr

/-- `generateId()` freshness is embedded as a counter-indexed id supply. -/
def genId (n : Nat) : String :=
  "gen-" ++ toString n

/-- JavaScript truthy-or fallback `v || d` on an optional string:
`undefined` and the empty string are falsy. -/
def jsOr (v : Option String) (d : String) : String :=
  match v with
  | some s => if s = "" then d else s
  | none => d

namespace Ctx

/-- `{...block, userId: currentUser.id, userName: ..., userColor: ...}`. -/
def stampTimeBlock (u : User) (b : TimeBlock) : TimeBlock :=
  { b with userId := some u.id, userName := some u.name, userColor := some u.color }

def stampTodo (u : User) (t : Todo) : Todo :=
  { t with userId := some u.id, userName := some u.name, userColor := some u.color }

def stampEvent (u : User) (e : Event) : Event :=
  { e with userId := some u.id, userName := some u.name, userColor := some u.color }

def stampWeeklyGoal (u : User) (g : WeeklyGoal) : WeeklyGoal :=
  { g with userId := some u.id, userName := some u.name, userColor := some u.color }

/-- `{...todo, userId: todo.userId || currentUser.id, ...}` in `updateTodo`. -/
def restampTodo (u : User) (t : Todo) : Todo :=
  { t with userId := some (jsOr t.userId u.id),
           userName := some (jsOr t.userName u.name),
           userColor := some (jsOr t.userColor u.color) }

def restampEvent (u : User) (e : Event) : Event :=
  { e with userId := some (jsOr e.userId u.id),
           userName := some (jsOr e.userName u.name),
           userColor := some (jsOr e.userColor u.color) }

def restampWeeklyGoal (u : User) (g : WeeklyGoal) : WeeklyGoal :=
  { g with userId := some (jsOr g.userId u.id),
           userName := some (jsOr g.userName u.name),
           userColor := some (jsOr g.userColor u.color) }

/-- `updateTimeBlock` of the provider: stamp, remote `setDoc` if room-joined,
`localStore.updateTimeBlock(block)` (the unstamped record), and an optimistic
replace-or-append of the stamped record in the view. -/
def updateTimeBlock (block : TimeBlock) (w : World) : World :=
  match w.app.currentUser with
  | none => w
  | some u =>
    let blockWithUser := stampTimeBlock u block
    let db' := match w.app.roomCode with
      | some code => w.db.setTimeBlockDoc code block.id blockWithUser
      | none => w.db
    let store' := { w.app.store with
      timeBlocks := localStore.updateTimeBlock block w.app.store.timeBlocks }
    let view' := { w.app.data with
      timeBlocks :=
        if w.app.data.timeBlocks.any (fun b => b.id = block.id) then
          w.app.data.timeBlocks.map (fun b => if b.id = block.id then blockWithUser else b)
        else
          w.app.data.timeBlocks ++ [blockWithUser] }
    ⟨{ w.app with store := store', data := view' }, db'⟩

def addTodo (todo : Todo) (w : World) : World :=
  match w.app.currentUser with
  | none => w
  | some u =>
    let todoWithUser := stampTodo u todo
    let db' := match w.app.roomCode with
      | some code => w.db.setTodoDoc code todo.id todoWithUser
      | none => w.db
    let store' := { w.app.store with todos := localStore.addTodo todo w.app.store.todos }
    let view' := { w.app.data with todos := w.app.data.todos ++ [todoWithUser] }
    ⟨{ w.app with store := store', data := view' }, db'⟩

def updateTodo (todo : Todo) (w : World) : World :=
  match w.app.currentUser with
  | none => w
  | some u =>
    let todoWithUser := restampTodo u todo
    let db' := match w.app.roomCode with
      | some code => w.db.setTodoDoc code todo.id todoWithUser
      | none => w.db
    let store' := { w.app.store with todos := localStore.updateTodo todo w.app.store.todos }
    let view' := { w.app.data with
      todos := w.app.data.todos.map (fun t => if t.id = todo.id then todoWithUser else t) }
    ⟨{ w.app with store := store', data := view' }, db'⟩

def deleteTodo (id : String) (w : World) : World :=
  let db' := match w.app.roomCode with
    | some code => w.db.deleteTodoDoc code id
    | none => w.db
  let store' := { w.app.store with todos := localStore.deleteTodo id w.app.store.todos }
  let view' := { w.app.data with todos := w.app.data.todos.filter (fun t => ¬ (t.id = id)) }
  ⟨{ w.app with store := store', data := view' }, db'⟩

def addEvent (event : Event) (w : World) : World :=
  match w.app.currentUser with
  | none => w
  | some u =>
    let eventWithUser := stampEvent u event
    let db' := match w.app.roomCode with
      | some code => w.db.setEventDoc code event.id eventWithUser
      | none => w.db
    let store' := { w.app.store with events := localStore.addEvent event w.app.store.events }
    let view' := { w.app.data with events := w.app.data.events ++ [eventWithUser] }
    ⟨{ w.app with store := store', data := view' }, db'⟩

def updateEvent (event : Event) (w : World) : World :=
  match w.app.currentUser with
  | none => w
  | some u =>
    let eventWithUser := restampEvent u event
    let db' := match w.app.roomCode with
      | some code => w.db.setEventDoc code event.id eventWithUser
      | none => w.db
    let store' := { w.app.store with events := localStore.updateEvent event w.app.store.events }
    let view' := { w.app.data with
      events := w.app.data.events.map (fun e => if e.id = event.id then eventWithUser else e) }
    ⟨{ w.app with store := store', data := view' }, db'⟩

def deleteEvent (id : String) (w : World) : World :=
  let db' := match w.app.roomCode with
    | some code => w.db.deleteEventDoc code id
    | none => w.db
  let store' := { w.app.store with events := localStore.deleteEvent id w.app.store.events }
  let view' := { w.app.data with events := w.app.data.events.filter (fun e => ¬ (e.id = id)) }
  ⟨{ w.app with store := store', data := view' }, db'⟩

def addWeeklyGoal (goal : WeeklyGoal) (w : World) : World :=
  match w.app.currentUser with
  | none => w
  | some u =>
    let goalWithUser := stampWeeklyGoal u goal
    let db' := match w.app.roomCode with
      | some code => w.db.setWeeklyGoalDoc code goal.id goalWithUser
      | none => w.db
    let store' := { w.app.store with
      weeklyGoals := localStore.addWeeklyGoal goal w.app.store.weeklyGoals }
    let view' := { w.app.data with weeklyGoals := w.app.data.weeklyGoals ++ [goalWithUser] }
    ⟨{ w.app with store := store', data := view' }, db'⟩

def updateWeeklyGoal (goal : WeeklyGoal) (w : World) : World :=
  match w.app.currentUser with
  | none => w
  | some u =>
    let goalWithUser := restampWeeklyGoal u goal
    let db' := match w.app.roomCode with
      | some code => w.db.setWeeklyGoalDoc code goal.id goalWithUser
      | none => w.db
    let store' := { w.app.store with
      weeklyGoals := localStore.updateWeeklyGoal goal w.app.store.weeklyGoals }
    let view' := { w.app.data with
      weeklyGoals := w.app.data.weeklyGoals.map (fun g => if g.id = goal.id then goalWithUser else g) }
    ⟨{ w.app with store := store', data := view' }, db'⟩

def deleteWeeklyGoal (id : String) (w : World) : World :=
  let db' := match w.app.roomCode with
    | some code => w.db.deleteWeeklyGoalDoc code id
    | none => w.db
  let store' := { w.app.store with
    weeklyGoals := localStore.deleteWeeklyGoal id w.app.store.weeklyGoals }
  let view' := { w.app.data with
    weeklyGoals := w.app.data.weeklyGoals.filter (fun g => ¬ (g.id = id)) }
  ⟨{ w.app with store := store', data := view' }, db'⟩

/-- `leaveRoom()`: clear the room code (state and persisted copy), mark
disconnected, drop the member list, and reset the view to the local store.
It performs no remote write at all. -/
def leaveRoom (w : World) : World :=
  ⟨{ w.app with
      roomCode := none,
      isConnected := false,
      roomUsers := [],
      data := dataFromStore w.app.store }, w.db⟩

/-- The room-listener `useEffect`, run after `roomCode`/`currentUser`
changes: the previous subscriptions are torn down (cleanup) and, when a room
code and user are present, the user is registered in the room
(`setDoc(userRef, currentUser, \x7bmerge: true\x7d)`) and the six collection
listeners are installed. -/
def roomEffect (w : World) : World :=
  match w.app.roomCode, w.app.currentUser with
  | some code, some u =>
    ⟨{ w.app with
        listeners := [ListenerTag.users, ListenerTag.categories, ListenerTag.timeBlocks,
                      ListenerTag.todos, ListenerTag.events, ListenerTag.weeklyGoals],
        isConnected := true },
     w.db.setUserDoc code u.id u⟩
  | _, _ =>
    ⟨{ w.app with listeners := [], isConnected := false }, w.db⟩

/-! Snapshot callbacks.  Each collection listener receives the full room
collection and replaces the corresponding slice of the view wholesale:
`setData(prev => (\x7b ...prev, todos \x7d))`. -/

def applyTimeBlocksSnapshot (blocks : List TimeBlock) (d : CalendarData) : CalendarData :=
  { d with timeBlocks := blocks }

def applyTodosSnapshot (todos : List Todo) (d : CalendarData) : CalendarData :=
  { d with todos := todos }

def applyEventsSnapshot (events : List Event) (d : CalendarData) : CalendarData :=
  { d with events := events }

def applyWeeklyGoalsSnapshot (goals : List WeeklyGoal) (d : CalendarData) : CalendarData :=
  { d with weeklyGoals := goals }

/-- A delivered snapshot of the subscribed room's `todos` collection:
`snapshot.docs.map(doc => doc.data())`. -/
def todosSnapshot (db : RemoteDB) (code : String) : List Todo :=
  ((db.room code).todos).map (fun p => p.2)

def weeklyGoalsSnapshot (db : RemoteDB) (code : String) : List WeeklyGoal :=
  ((db.room code).weeklyGoals).map (fun p => p.2)

/-- One merge cycle of the `todos` listener on the subscribed room. -/
def onTodosSnapshot (w : World) : World :=
  match w.app.roomCode with
  | some code => ⟨{ w.app with data := applyTodosSnapshot (todosSnapshot w.db code) w.app.data }, w.db⟩
  | none => w

def onWeeklyGoalsSnapshot (w : World) : World :=
  match w.app.roomCode with
  | some code =>
    ⟨{ w.app with data := applyWeeklyGoalsSnapshot (weeklyGoalsSnapshot w.db code) w.app.data }, w.db⟩
  | none => w

end Ctx

/-! ## MonthlyView: quick-schedule parsing (src/components/MonthlyView.tsx) -/

/-- JavaScript `\s` for the whitespace classes relevant here (ASCII). -/
def isJsSpace (c : Char) : Bool :=
  c = ' ' || c = '\t' || c = '\n' || c = '\x0d' || c = '\x0b' || c = '\x0c'

/-- `String.prototype.trim()`. -/
def jsTrim (s : String) : String :=
  String.mk (((s.toList.dropWhile isJsSpace).reverse.dropWhile isJsSpace).reverse)

/-- Match `\d+\.?\d*`: returns the integer digits, the fraction digits and
the rest of the input. -/
def matchNumber (l : List Char) : Option ((List Char × List Char) × List Char) :=
  let ds := l.takeWhile Char.isDigit
  let r1 := l.dropWhile Char.isDigit
  if ds.isEmpty then none
  else
    match r1 with
    | '.' :: r2 => some ((ds, r2.takeWhile Char.isDigit), r2.dropWhile Char.isDigit)
    | _ => some ((ds, []), r1)

/-- Match the tail `\s+(.+)$` of the quick-input pattern, giving the capture
of `(.+)` under the regex engine's greedy-with-backtracking semantics
(`.` does not match line terminators; `$` anchors at the very end). -/
def matchTitle (t : List Char) : Option (List Char) :=
  match t with
  | [] => none
  | c :: _ =>
    if ¬ isJsSpace c then none
    else
      let w := t.takeWhile isJsSpace
      let rest := t.dropWhile isJsSpace
      if rest.isEmpty then
        -- all-whitespace tail: `\s+` backtracks one character into `.+`
        if 2 ≤ w.length then
          match w.getLast? with
          | some lc => if lc = '\n' || lc = '\x0d' then none else some [lc]
          | none => none
        else none
      else
        if rest.any (fun c => c = '\n' || c = '\x0d') then none else some rest

/-- The full match `^(\d+\.?\d*)\s*[-~]\s*(\d+\.?\d*)\s+(.+)$`, returning the
digit parts of both numbers and the title capture. -/
def matchSchedule (l : List Char) :
    Option ((List Char × List Char) × (List Char × List Char) × List Char) :=
  match matchNumber l with
  | none => none
  | some (n1, r1) =>
    let r2 := r1.dropWhile isJsSpace
    match r2 with
    | sep :: r3 =>
      if sep = '-' || sep = '~' then
        let r4 := r3.dropWhile isJsSpace
        match matchNumber r4 with
        | none => none
        | some (n2, r5) =>
          match matchTitle r5 with
          | none => none
          | some title => some (n1, n2, title)
      else none
    | [] => none

/-- Decimal digit list to `Nat`. -/
def natOfDigits (l : List Char) : Nat :=
  l.foldl (fun acc c => acc * 10 + (c.toNat - '0'.toNat)) 0

/-- `parseFloat` on a string matched by `\d+\.?\d*`, as an exact rational. -/
def ratOfParts (ip fp : List Char) : ℚ :=
  (natOfDigits ip : ℚ) + (natOfDigits fp : ℚ) / ((10 : ℚ) ^ fp.length)

/-- `Math.floor(t)*2 + (t % 1 >= 0.5 ? 1 : 0)` for the nonnegative times the
matched grammar produces. -/
def slotOfTime (t : ℚ) : Int :=
  ⌊t⌋ * 2 + (if (1 : ℚ) / 2 ≤ t - ⌊t⌋ then 1 else 0)

structure ParsedSchedule where
  start : Int
  stop : Int
  title : String
deriving DecidableEq, Repr

/-- `parseScheduleInput`: regex match, `parseFloat` both bounds, reject when
a bound is out of `[0, 24]` or `start >= end`, convert to 30-minute slots.
(The `isNaN` guards of the source are unreachable for regex-matched input.) -/
def parseScheduleInput (input : String) : Option ParsedSchedule :=
  match matchSchedule input.toList with
  | none => none
  | some (n1, n2, titleChars) =>
    let startTime := ratOfParts n1.1 n1.2
    let endTime := ratOfParts n2.1 n2.2
    let title := jsTrim (String.mk titleChars)
    if startTime < 0 || 24 < endTime || endTime ≤ startTime then none
    else some ⟨slotOfTime startTime, slotOfTime endTime, title⟩

/-- `hour.toString().padStart(2, '0')` for the hour values in range. -/
def pad2 (n : Nat) : String :=
  if n < 10 then "0" ++ toString n else toString n

/-- `slotToTimeString` for the nonnegative slots produced by the parser. -/
def slotToTimeString (slot : Int) : String :=
  let n := slot.toNat
  pad2 (n / 2) ++ ":" ++ (if n % 2 * 30 = 0 then "00" else "30")

def digitVal (c : Char) : Nat :=
  c.toNat - '0'.toNat

/-- `timeStringToSlot` applied to a two-digit hour and two-digit minute:
`hour * 2 + (minute >= 30 ? 1 : 0)`. -/
def twoDigitSlot (h1 h2 m1 m2 : Char) : Int :=
  ((digitVal h1 * 10 + digitVal h2 : Nat) : Int) * 2 +
    (if 30 ≤ digitVal m1 * 10 + digitVal m2 then 1 else 0)

structure EventRange where
  start : Int
  stop : Int
deriving DecidableEq, Repr

/-- `parseEventTime`: match `^(\d{2}:\d{2})~(\d{2}:\d{2})$` and convert both
endpoints with `timeStringToSlot`. -/
def parseEventTime (time : String) : Option EventRange :=
  match time.toList with
  | [h1, h2, c1, m1, m2, sep, h3, h4, c2, m3, m4] =>
    if h1.isDigit && h2.isDigit && c1 = ':' && m1.isDigit && m2.isDigit &&
        sep = '~' && h3.isDigit && h4.isDigit && c2 = ':' && m3.isDigit && m4.isDigit then
      some ⟨twoDigitSlot h1 h2 m1 m2, twoDigitSlot h3 h4 m3 m4⟩
    else none
  | _ => none

/-- `for (let slot = start; slot < stop; slot++)` iteration space. -/
def slotRange (start stop : Int) : List Int :=
  (List.range (stop - start).toNat).map (fun i => start + i)

namespace MonthlyView

open Ctx

/-- `handleQuickAdd` for a selected day `dateStr`: parse the trimmed input;
on success create one TimeBlock per slot in `[start, stop)` (note = title,
no category) through the provider's `updateTimeBlock`, then one Event whose
`time` is `slotToTimeString(start) + "~" + slotToTimeString(stop)` through
`addEvent`.  Invalid input returns without any mutation. -/
def handleQuickAdd (quickInput : String) (dateStr : String) (w : World) : World :=
  if (jsTrim quickInput).isEmpty then w
  else
    match parseScheduleInput (jsTrim quickInput) with
    | none => w
    | some parsed =>
      let w1 := (slotRange parsed.start parsed.stop).foldl
        (fun acc slot =>
          let block : TimeBlock :=
            { id := genId acc.app.nextId, date := dateStr, hour := slot,
              categoryId := none, note := parsed.title }
          Ctx.updateTimeBlock block ⟨{ acc.app with nextId := acc.app.nextId + 1 }, acc.db⟩)
        w
      let event : Event :=
        { id := genId w1.app.nextId, date := dateStr, title := parsed.title,
          time := some (slotToTimeString parsed.start ++ "~" ++ slotToTimeString parsed.stop) }
      Ctx.addEvent event ⟨{ w1.app with nextId := w1.app.nextId + 1 }, w1.db⟩

/-- `handleDeleteEvent`: look up the event in the view; when its `time`
parses, clear (`note: '', categoryId: null`) the first view TimeBlock found
at `(event.date, slot)` for each slot in the range — the lookup list is the
`data.timeBlocks` captured when the handler ran; finally delete the event. -/
def handleDeleteEvent (id : String) (w : World) : World :=
  let eventToDelete := w.app.data.events.find? (fun e => e.id = id)
  let w1 :=
    match eventToDelete with
    | some ev =>
      match ev.time with
      | some t =>
        match parseEventTime t with
        | some range =>
          let blocksSnapshot := w.app.data.timeBlocks
          (slotRange range.start range.stop).foldl
            (fun acc slot =>
              match blocksSnapshot.find? (fun b => b.date = ev.date && b.hour = slot) with
              | some existingBlock =>
                Ctx.updateTimeBlock { existingBlock with note := "", categoryId := none } acc
              | none => acc)
            w
        | none => w
      | none => w
    | none => w
  Ctx.deleteEvent id w1

end MonthlyView

/-! ## DailyView and WeeklyView add handlers -/

/-- Insert into a list sorted by `order`, before the first strictly greater
element (an earlier element therefore precedes later elements of equal
`order` — the stability JS `sort` guarantees). -/
def insertByOrderTodo (t : Todo) : List Todo → List Todo
  | [] => [t]
  | x :: xs => if x.order < t.order then x :: insertByOrderTodo t xs else t :: x :: xs

/-- Stable sort by `order` (`(a, b) => a.order - b.order`).  Any stable sort
with this comparator computes the same list; insertion sort is used as the
executable model. -/
def sortTodosByOrder : List Todo → List Todo
  | [] => []
  | t :: ts => insertByOrderTodo t (sortTodosByOrder ts)

def insertByOrderGoal (g : WeeklyGoal) : List WeeklyGoal → List WeeklyGoal
  | [] => [g]
  | x :: xs => if x.order < g.order then x :: insertByOrderGoal g xs else g :: x :: xs

def sortGoalsByOrder : List WeeklyGoal → List WeeklyGoal
  | [] => []
  | g :: gs => insertByOrderGoal g (sortGoalsByOrder gs)

/-- The `todos` memo of DailyView: this date's todos, sorted by `order`. -/
def todosForDate (d : CalendarData) (dateString : String) : List Todo :=
  sortTodosByOrder (d.todos.filter (fun t => t.date = dateString))

/-- The `goals` memo of WeeklyView: this week's goals, sorted by `order`. -/
def goalsForWeek (d : CalendarData) (weekStart : String) : List WeeklyGoal :=
  sortGoalsByOrder (d.weeklyGoals.filter (fun g => g.weekStart = weekStart))

namespace DailyView

/-- `handleAddTodo`: reject blank text, otherwise add a todo whose `order`
is the current count of this date's todos in the view. -/
def handleAddTodo (newTodoText : String) (dateString : String) (w : World) : World :=
  if (jsTrim newTodoText).isEmpty then w
  else
    let todo : Todo :=
      { id := genId w.app.nextId, date := dateString, text := jsTrim newTodoText,
        completed := false, order := ((todosForDate w.app.data dateString).length : Int) }
    Ctx.addTodo todo ⟨{ w.app with nextId := w.app.nextId + 1 }, w.db⟩

/-- `myTimeBlocks.find(b => b.hour === slot)` after the date and
`userId === currentUser.id` filters: the view read path for one slot. -/
def viewBlockAt (d : CalendarData) (dateString : String) (uid : String) (slot : Int) :
    Option TimeBlock :=
  (((d.timeBlocks.filter (fun b => b.date = dateString)).filter
      (fun b => b.userId = some uid))).find? (fun b => b.hour = slot)

end DailyView

namespace WeeklyView

/-- `handleAddGoal`: reject blank text, otherwise add a weekly goal whose
`order` is the current count of this week's goals in the view. -/
def handleAddGoal (newGoalText : String) (weekStart : String) (w : World) : World :=
  if (jsTrim newGoalText).isEmpty then w
  else
    let goal : WeeklyGoal :=
      { id := genId w.app.nextId, weekStart := weekStart, text := jsTrim newGoalText,
        completed := false, order := ((goalsForWeek w.app.data weekStart).length : Int) }
    Ctx.addWeeklyGoal goal ⟨{ w.app with nextId := w.app.nextId + 1 }, w.db⟩

end WeeklyView

/-! ## JSON serialization layer (src/store.ts: loadFromStorage/saveToStorage)

`saveToStorage` writes `JSON.stringify(value)` for the collection value and
`loadFromStorage` reads it back through `JSON.parse`, substituting the
default on a missing key, an empty stored string (falsy) or a parse failure.

The encoder below mirrors `JSON.stringify` output for the entity records
(string escaping with `\" \\ \n \r \t \b \f` and `\u00XX` for the remaining
control characters, no insignificant whitespace, `undefined` properties
omitted, `null` for the nullable `categoryId`, a fixed canonical key order);
the decoder accepts that output.  Number-valued fields are embedded as
integers. -/

inductive JVal where
  | jstr (s : String)
  | jnum (n : Int)
  | jbool (b : Bool)
  | jnull
deriving DecidableEq, Repr

def hexVal (c : Char) : Option Nat :=
  if '0' ≤ c ∧ c ≤ '9' then some (c.toNat - '0'.toNat)
  else if 'a' ≤ c ∧ c ≤ 'f' then some (c.toNat - 'a'.toNat + 10)
  else if 'A' ≤ c ∧ c ≤ 'F' then some (c.toNat - 'A'.toNat + 10)
  else none

/-- How `JSON.stringify` emits one character of a string literal. -/
def escChar (c : Char) : List Char :=
  if c = '"' then ['\\', '"']
  else if c = '\\' then ['\\', '\\']
  else if c = '\n' then ['\\', 'n']
  else if c = '\x0d' then ['\\', 'r']
  else if c = '\t' then ['\\', 't']
  else if c = '\x08' then ['\\', 'b']
  else if c = '\x0c' then ['\\', 'f']
  else if c.toNat < 32 then
    ['\\', 'u', '0', '0', Nat.digitChar (c.toNat / 16), Nat.digitChar (c.toNat % 16)]
  else [c]

def escapeChars : List Char → List Char
  | [] => []
  | c :: cs => escChar c ++ escapeChars cs

/-- Consume a JSON string-literal body up to (and including) the closing
quote, undoing the escapes `JSON.stringify` produces. -/
def unescBody : List Char → Option (List Char × List Char)
  | [] => none
  | c :: rest =>
    if c = '"' then some ([], rest)
    else if c = '\\' then
      match rest with
      | [] => none
      | e :: rest2 =>
        if e = '"' then (unescBody rest2).map (fun p => ('"' :: p.1, p.2))
        else if e = '\\' then (unescBody rest2).map (fun p => ('\\' :: p.1, p.2))
        else if e = 'n' then (unescBody rest2).map (fun p => ('\n' :: p.1, p.2))
        else if e = 'r' then (unescBody rest2).map (fun p => ('\x0d' :: p.1, p.2))
        else if e = 't' then (unescBody rest2).map (fun p => ('\t' :: p.1, p.2))
        else if e = 'b' then (unescBody rest2).map (fun p => ('\x08' :: p.1, p.2))
        else if e = 'f' then (unescBody rest2).map (fun p => ('\x0c' :: p.1, p.2))
        else if e = 'u' then
          match rest2 with
          | d1 :: d2 :: d3 :: d4 :: rest3 =>
            match hexVal d1, hexVal d2, hexVal d3, hexVal d4 with
            | some v1, some v2, some v3, some v4 =>
              (unescBody rest3).map
                (fun p => (Char.ofNat (((v1 * 16 + v2) * 16 + v3) * 16 + v4) :: p.1, p.2))
            | _, _, _, _ => none
          | _ => none
        else none
    else (unescBody rest).map (fun p => (c :: p.1, p.2))

def natToChars (n : Nat) : List Char :=
  if _h : n < 10 then [Nat.digitChar n]
  else natToChars (n / 10) ++ [Nat.digitChar (n % 10)]
decreasing_by exact Nat.div_lt_self (by omega) (by omega)

def parseNatAux : List Char → Nat → Nat × List Char
  | [], acc => (acc, [])
  | c :: rest, acc =>
    if c.isDigit then parseNatAux rest (acc * 10 + digitVal c) else (acc, c :: rest)

def encInt (n : Int) : List Char :=
  if n < 0 then '-' :: natToChars (-n).toNat else natToChars n.toNat

def encJVal : JVal → List Char
  | JVal.jstr s => '"' :: (escapeChars s.toList ++ ['"'])
  | JVal.jnum n => encInt n
  | JVal.jbool true => ['t', 'r', 'u', 'e']
  | JVal.jbool false => ['f', 'a', 'l', 's', 'e']
  | JVal.jnull => ['n', 'u', 'l', 'l']

def parseJVal (l : List Char) : Option (JVal × List Char) :=
  match l with
  | [] => none
  | c :: rest =>
    if c = '"' then (unescBody rest).map (fun p => (JVal.jstr (String.mk p.1), p.2))
    else if c = '-' then
      match rest with
      | c2 :: _ =>
        if c2.isDigit then
          let p := parseNatAux rest 0
          some (JVal.jnum (-(p.1 : Int)), p.2)
        else none
      | [] => none
    else if c.isDigit then
      let p := parseNatAux (c :: rest) 0
      some (JVal.jnum (p.1 : Int), p.2)
    else
      match c :: rest with
      | 't' :: 'r' :: 'u' :: 'e' :: r => some (JVal.jbool true, r)
      | 'f' :: 'a' :: 'l' :: 's' :: 'e' :: r => some (JVal.jbool false, r)
      | 'n' :: 'u' :: 'l' :: 'l' :: r => some (JVal.jnull, r)
      | _ => none

def encField (k : String) (v : JVal) : List Char :=
  '"' :: (escapeChars k.toList ++ '"' :: ':' :: encJVal v)

def encFields : List (String × JVal) → List Char
  | [] => []
  | [(k, v)] => encField k v
  | (k, v) :: rest => encField k v ++ ',' :: encFields rest

def encObj (fs : List (String × JVal)) : List Char :=
  '\x7b' :: (encFields fs ++ ['\x7d'])

def parseField (l : List Char) : Option ((String × JVal) × List Char) :=
  match l with
  | '"' :: r =>
    match unescBody r with
    | some (kcs, r2) =>
      match r2 with
      | ':' :: r3 => (parseJVal r3).map (fun p => ((String.mk kcs, p.1), p.2))
      | _ => none
    | none => none
  | _ => none

def parseFieldsAux : Nat → List Char → Option (List (String × JVal) × List Char)
  | 0, _ => none
  | fuel + 1, l =>
    match parseField l with
    | none => none
    | some (kv, r) =>
      match r with
      | ',' :: r2 => (parseFieldsAux fuel r2).map (fun p => (kv :: p.1, p.2))
      | '\x7d' :: r2 => some ([kv], r2)
      | _ => none

def parseObj (fuel : Nat) (l : List Char) : Option (List (String × JVal) × List Char) :=
  match l with
  | '\x7b' :: '\x7d' :: rest => some ([], rest)
  | '\x7b' :: rest => parseFieldsAux fuel rest
  | _ => none

def encObjs : List (List (String × JVal)) → List Char
  | [] => []
  | [o] => encObj o
  | o :: rest => encObj o ++ ',' :: encObjs rest

def encArr (objs : List (List (String × JVal))) : List Char :=
  '[' :: (encObjs objs ++ [']'])

def parseArrAux : Nat → List Char → Option (List (List (String × JVal)) × List Char)
  | 0, _ => none
  | fuel + 1, l =>
    match parseObj fuel l with
    | none => none
    | some (o, r) =>
      match r with
      | ',' :: r2 => (parseArrAux fuel r2).map (fun p => (o :: p.1, p.2))
      | ']' :: r2 => some ([o], r2)
      | _ => none

def parseArr (fuel : Nat) (l : List Char) : Option (List (List (String × JVal)) × List Char) :=
  match l with
  | '[' :: ']' :: rest => some ([], rest)
  | '[' :: rest => parseArrAux fuel rest
  | _ => none

/-! Field layouts of the five entity records. -/

def jopt (v : Option String) (key : String) : List (String × JVal) :=
  match v with
  | some s => [(key, JVal.jstr s)]
  | none => []

/-- Read back one optional string field emitted by `jopt`. -/
def optStrField (key : String) (fs : List (String × JVal)) :
    Option String × List (String × JVal) :=
  match fs with
  | (k, JVal.jstr s) :: rest => if k = key then (some s, rest) else (none, fs)
  | _ => (none, fs)

def Category.toFields (c : Category) : List (String × JVal) :=
  [("id", JVal.jstr c.id), ("name", JVal.jstr c.name),
   ("color", JVal.jstr c.color), ("icon", JVal.jstr c.icon)]

def Category.fromFields : List (String × JVal) → Option Category
  | [("id", JVal.jstr i), ("name", JVal.jstr n), ("color", JVal.jstr c), ("icon", JVal.jstr ic)] =>
    some ⟨i, n, c, ic⟩
  | _ => none

def TimeBlock.toFields (b : TimeBlock) : List (String × JVal) :=
  [("id", JVal.jstr b.id), ("date", JVal.jstr b.date), ("hour", JVal.jnum b.hour),
   ("categoryId", match b.categoryId with | some s => JVal.jstr s | none => JVal.jnull),
   ("note", JVal.jstr b.note)]
  ++ jopt b.userId "userId" ++ jopt b.userName "userName" ++ jopt b.userColor "userColor"

def TimeBlock.fromFields : List (String × JVal) → Option TimeBlock
  | ("id", JVal.jstr i) :: ("date", JVal.jstr d) :: ("hour", JVal.jnum h) ::
      ("categoryId", cv) :: ("note", JVal.jstr n) :: rest =>
    match (match cv with
           | JVal.jstr s => some (some s)
           | JVal.jnull => some (Option.none)
           | _ => none) with
    | some cat =>
      let p1 := optStrField "userId" rest
      let p2 := optStrField "userName" p1.2
      let p3 := optStrField "userColor" p2.2
      if p3.2 = [] then some ⟨i, d, h, cat, n, p1.1, p2.1, p3.1⟩ else none
    | none => none
  | _ => none

def Todo.toFields (t : Todo) : List (String × JVal) :=
  [("id", JVal.jstr t.id), ("date", JVal.jstr t.date), ("text", JVal.jstr t.text),
   ("completed", JVal.jbool t.completed), ("order", JVal.jnum t.order)]
  ++ jopt t.userId "userId" ++ jopt t.userName "userName" ++ jopt t.userColor "userColor"

def Todo.fromFields : List (String × JVal) → Option Todo
  | ("id", JVal.jstr i) :: ("date", JVal.jstr d) :: ("text", JVal.jstr tx) ::
      ("completed", JVal.jbool cp) :: ("order", JVal.jnum o) :: rest =>
    let p1 := optStrField "userId" rest
    let p2 := optStrField "userName" p1.2
    let p3 := optStrField "userColor" p2.2
    if p3.2 = [] then some ⟨i, d, tx, cp, o, p1.1, p2.1, p3.1⟩ else none
  | _ => none

def Event.toFields (e : Event) : List (String × JVal) :=
  [("id", JVal.jstr e.id), ("date", JVal.jstr e.date), ("title", JVal.jstr e.title)]
  ++ jopt e.time "time" ++ jopt e.note "note"
  ++ jopt e.userId "userId" ++ jopt e.userName "userName" ++ jopt e.userColor "userColor"

def Event.fromFields : List (String × JVal) → Option Event
  | ("id", JVal.jstr i) :: ("date", JVal.jstr d) :: ("title", JVal.jstr t) :: rest =>
    let p0 := optStrField "time" rest
    let p1 := optStrField "note" p0.2
    let p2 := optStrField "userId" p1.2
    let p3 := optStrField "userName" p2.2
    let p4 := optStrField "userColor" p3.2
    if p4.2 = [] then some ⟨i, d, t, p0.1, p1.1, p2.1, p3.1, p4.1⟩ else none
  | _ => none

def WeeklyGoal.toFields (g : WeeklyGoal) : List (String × JVal) :=
  [("id", JVal.jstr g.id), ("weekStart", JVal.jstr g.weekStart), ("text", JVal.jstr g.text),
   ("completed", JVal.jbool g.completed), ("order", JVal.jnum g.order)]
  ++ jopt g.userId "userId" ++ jopt g.userName "userName" ++ jopt g.userColor "userColor"

def WeeklyGoal.fromFields : List (String × JVal) → Option WeeklyGoal
  | ("id", JVal.jstr i) :: ("weekStart", JVal.jstr ws) :: ("text", JVal.jstr tx) ::
      ("completed", JVal.jbool cp) :: ("order", JVal.jnum o) :: rest =>
    let p1 := optStrField "userId" rest
    let p2 := optStrField "userName" p1.2
    let p3 := optStrField "userColor" p2.2
    if p3.2 = [] then some ⟨i, ws, tx, cp, o, p1.1, p2.1, p3.1⟩ else none
  | _ => none

/-! Whole-collection stringify / parse, and the key-value storage. -/

def stringifyWith {α : Type} (toFields : α → List (String × JVal)) (l : List α) : String :=
  String.mk (encArr (l.map toFields))

/-- Read each decoded object through the entity decoder (`Option`-valued
traversal of the parsed array). -/
def decodeAll {α : Type} (f : List (String × JVal) → Option α) :
    List (List (String × JVal)) → Option (List α)
  | [] => some []
  | o :: os =>
    match f o with
    | some x => (decodeAll f os).map (fun xs => x :: xs)
    | none => none

def parseWith {α : Type} (fromFields : List (String × JVal) → Option α) (s : String) :
    Option (List α) :=
  match parseArr s.toList.length s.toList with
  | some (objs, []) => decodeAll fromFields objs
  | _ => none

/-- `localStorage` contents. -/
def Storage := List (String × String)

def saveToStorage (key val : String) (st : Storage) : Storage :=
  AList.upsert key val st

/-- `loadFromStorage(key, defaultValue)` over a decoder: a missing record, a
falsy (empty) record or a failed parse all yield the default. -/
def loadFromStorage {α : Type} (dec : String → Option α) (key : String) (d : α)
    (st : Storage) : α :=
  match AList.get? key st with
  | some s => if s = "" then d else (dec s).getD d
  | none => d

def saveCollection {α : Type} (toFields : α → List (String × JVal)) (key : String)
    (l : List α) (st : Storage) : Storage :=
  saveToStorage key (stringifyWith toFields l) st

def loadCollection {α : Type} (fromFields : List (String × JVal) → Option α) (key : String)
    (d : List α) (st : Storage) : List α :=
  loadFromStorage (parseWith fromFields) key d st

/-! ## Derived helpers and concrete sample data used by the verification -/

/-- The record written into the view and the remote store when
`handleDeleteEvent` clears a block: `\x7bnote: '', categoryId: null\x7d`
spread into the found block, then stamped by `updateTimeBlock`. -/
def clearStamp (u : User) (b : TimeBlock) : TimeBlock :=
  Ctx.stampTimeBlock u { b with note := "", categoryId := none }

/-- Ids of the blocks `handleDeleteEvent` finds (first block of the captured
view at `(date, slot)`, any owner) over the slots of an event range. -/
def foundIds (blocks : List TimeBlock) (date : String) (r : EventRange) : List String :=
  (slotRange r.start r.stop).filterMap
    (fun slot => (blocks.find? (fun b => b.date = date && b.hour = slot)).map (fun b => b.id))

/-- N consecutive `handleAddTodo` interactions. -/
def addTodosLoop (texts : List String) (dateString : String) (w : World) : World :=
  texts.foldl (fun acc tx => DailyView.handleAddTodo tx dateString acc) w

/-- N consecutive `handleAddGoal` interactions. -/
def addGoalsLoop (texts : List String) (weekStart : String) (w : World) : World :=
  texts.foldl (fun acc tx => WeeklyView.handleAddGoal tx weekStart acc) w

def emptyCalendarData : CalendarData := ⟨[], [], [], [], []⟩

def emptyStoreData : StoreData := ⟨[], [], [], [], []⟩

def userA : User := ⟨"userA", "Alice", "#6ea89e"⟩

def userB : User := ⟨"userB", "Bob", "#e8a87c"⟩

/-- Device A, joined to room `ROOM42`, empty local data. -/
def stateA : AppState :=
  { currentUser := some userA, roomCode := some "ROOM42",
    data := emptyCalendarData, store := emptyStoreData }

/-- Device B, joined to the same room. -/
def stateB : AppState :=
  { currentUser := some userB, roomCode := some "ROOM42",
    data := emptyCalendarData, store := emptyStoreData }

/-- An unaffiliated device with identity A and empty data. -/
def soloWorld : World :=
  ⟨{ currentUser := some userA, roomCode := none,
     data := emptyCalendarData, store := emptyStoreData }, {}⟩

def todoB : Todo :=
  { id := "t1", date := "2025-01-15", text := "buy milk", completed := false, order := 0 }

/-- A TimeBlock owned by user B at slot 20 of 2025-01-15. -/
def blockOtherOwner : TimeBlock :=
  { id := "b1", date := "2025-01-15", hour := 20, categoryId := some "work", note := "busy",
    userId := some "userB", userName := some "Bob", userColor := some "#e8a87c" }

/-- An Event owned by user A covering 10:00-11:00 of the same date. -/
def eventA : Event :=
  { id := "e1", date := "2025-01-15", title := "meet", time := some "10:00~11:00",
    userId := some "userA", userName := some "Alice", userColor := some "#6ea89e" }

/-- A device A view holding B's block and A's event. -/
def worldC4 : World :=
  ⟨{ currentUser := some userA, roomCode := none,
     data := { emptyCalendarData with timeBlocks := [blockOtherOwner], events := [eventA] },
     store := emptyStoreData }, {}⟩

/-- A todo carrying B's ownerId and color but no ownerName. -/
def mixedTodo : Todo :=
  { id := "t2", date := "2025-01-15", text := "x", completed := false, order := 0,
    userId := some "userB", userName := none, userColor := some "#e8a87c" }

def worldC6 : World :=
  ⟨{ currentUser := some userA, roomCode := some "ROOM42",
     data := { emptyCalendarData with todos := [mixedTodo] },
     store := { emptyStoreData with todos := [mixedTodo] } }, {}⟩

/-- A remote store in which user A holds a membership record of room
`ROOM42`. -/
def dbWithA : RemoteDB := RemoteDB.setUserDoc "ROOM42" userA.id userA {}

/-! # Round-trip lemmas for the serialization layer -/

theorem hexVal_digitChar (v : Nat) (h : v < 16) : hexVal (Nat.digitChar v) = some v := by
  have : ∀ m, m < 16 → hexVal (Nat.digitChar m) = some m := by decide
  exact this v h

theorem digitVal_digitChar (v : Nat) (h : v < 10) : digitVal (Nat.digitChar v) = v := by
  have : ∀ m, m < 10 → digitVal (Nat.digitChar m) = m := by decide
  exact this v h

theorem isDigit_digitChar (v : Nat) (h : v < 10) : (Nat.digitChar v).isDigit = true := by
  have : ∀ m, m < 10 → (Nat.digitChar m).isDigit = true := by decide
  exact this v h

theorem unescBody_quote (rest : List Char) : unescBody ('"' :: rest) = some ([], rest) := by
  rw [unescBody.eq_def]; norm_num

theorem unescBody_escQuote (rest : List Char) :
    unescBody ('\\' :: '"' :: rest) =
      (unescBody rest).map (fun p => ('"' :: p.1, p.2)) := by
  rw [unescBody.eq_def]; norm_num; try simp +decide

theorem unescBody_escBackslash (rest : List Char) :
    unescBody ('\\' :: '\\' :: rest) =
      (unescBody rest).map (fun p => ('\\' :: p.1, p.2)) := by
  rw [unescBody.eq_def]; norm_num; try simp +decide

theorem unescBody_escN (rest : List Char) :
    unescBody ('\\' :: 'n' :: rest) =
      (unescBody rest).map (fun p => ('\n' :: p.1, p.2)) := by
  rw [unescBody.eq_def]; norm_num; try simp +decide

theorem unescBody_escR (rest : List Char) :
    unescBody ('\\' :: 'r' :: rest) =
      (unescBody rest).map (fun p => ('\x0d' :: p.1, p.2)) := by
  rw [unescBody.eq_def]; norm_num; try simp +decide

theorem unescBody_escT (rest : List Char) :
    unescBody ('\\' :: 't' :: rest) =
      (unescBody rest).map (fun p => ('\t' :: p.1, p.2)) := by
  rw [unescBody.eq_def]; norm_num; try simp +decide

theorem unescBody_escB (rest : List Char) :
    unescBody ('\\' :: 'b' :: rest) =
      (unescBody rest).map (fun p => ('\x08' :: p.1, p.2)) := by
  rw [unescBody.eq_def]; norm_num; try simp +decide

theorem unescBody_escF (rest : List Char) :
    unescBody ('\\' :: 'f' :: rest) =
      (unescBody rest).map (fun p => ('\x0c' :: p.1, p.2)) := by
  rw [unescBody.eq_def]; norm_num; try simp +decide

theorem unescBody_escU (d1 d2 d3 d4 : Char) (v1 v2 v3 v4 : Nat) (rest : List Char)
    (e1 : hexVal d1 = some v1) (e2 : hexVal d2 = some v2)
    (e3 : hexVal d3 = some v3) (e4 : hexVal d4 = some v4) :
    unescBody ('\\' :: 'u' :: d1 :: d2 :: d3 :: d4 :: rest) =
      (unescBody rest).map
        (fun p => (Char.ofNat (((v1 * 16 + v2) * 16 + v3) * 16 + v4) :: p.1, p.2)) := by
  rw [unescBody.eq_def]
  simp +decide [e1, e2, e3, e4]

theorem unescBody_other (c : Char) (rest : List Char) (h1 : ¬ c = '"') (h2 : ¬ c = '\\') :
    unescBody (c :: rest) = (unescBody rest).map (fun p => (c :: p.1, p.2)) := by
  rw [unescBody.eq_def]
  simp only [h1, h2, if_false]

theorem unescBody_escape (s : List Char) : ∀ (rest : List Char),
    unescBody (escapeChars s ++ '"' :: rest) = some (s, rest) := by
  induction s with
  | nil => intro rest; simpa [escapeChars] using unescBody_quote rest
  | cons c cs ih =>
    intro rest
    by_cases h1 : c = '"'
    · subst h1; simp [escapeChars, escChar, unescBody_escQuote, ih]
    by_cases h2 : c = '\\'
    · subst h2; simp [escapeChars, escChar, unescBody_escBackslash, ih]
    by_cases h3 : c = '\n'
    · subst h3; simp [escapeChars, escChar, unescBody_escN, ih]
    by_cases h4 : c = '\x0d'
    · subst h4; simp [escapeChars, escChar, unescBody_escR, ih]
    by_cases h5 : c = '\t'
    · subst h5; simp [escapeChars, escChar, unescBody_escT, ih]
    by_cases h6 : c = '\x08'
    · subst h6; simp [escapeChars, escChar, unescBody_escB, ih]
    by_cases h7 : c = '\x0c'
    · subst h7; simp [escapeChars, escChar, unescBody_escF, ih]
    by_cases h8 : c.toNat < 32
    · have e1 : hexVal '0' = some 0 := by decide
      have e2 : hexVal (Nat.digitChar (c.toNat / 16)) = some (c.toNat / 16) :=
        hexVal_digitChar _ (by omega)
      have e3 : hexVal (Nat.digitChar (c.toNat % 16)) = some (c.toNat % 16) :=
        hexVal_digitChar _ (by omega)
      have e4 : c.toNat / 16 * 16 + c.toNat % 16 = c.toNat := by omega
      have step := unescBody_escU '0' '0' (Nat.digitChar (c.toNat / 16))
        (Nat.digitChar (c.toNat % 16)) 0 0 (c.toNat / 16) (c.toNat % 16)
        (escapeChars cs ++ '"' :: rest) e1 e1 e2 e3
      simp [escapeChars, escChar, h1, h2, h3, h4, h5, h6, h7, h8, step, e4,
        Char.ofNat_toNat, ih]
    · simp [escapeChars, escChar, h1, h2, h3, h4, h5, h6, h7, h8,
        unescBody_other c _ h1 h2, ih]

theorem natToChars_cons (n : Nat) :
    ∃ c cs, natToChars n = c :: cs ∧ c.isDigit = true := by
  induction n using Nat.strong_induction_on with
  | _ n ih =>
    rw [natToChars]
    by_cases h : n < 10
    · exact ⟨Nat.digitChar n, [], by simp [h], isDigit_digitChar n h⟩
    · obtain ⟨c, cs, hc, hd⟩ := ih (n / 10) (Nat.div_lt_self (by omega) (by omega))
      exact ⟨c, cs ++ [Nat.digitChar (n % 10)], by simp [h, hc], hd⟩

theorem parseNatAux_natToChars (n : Nat) : ∀ (rest : List Char) (acc : Nat),
    parseNatAux (natToChars n ++ rest) acc =
      parseNatAux rest (acc * 10 ^ (natToChars n).length + n) := by
  induction n using Nat.strong_induction_on with
  | _ n ih =>
    intro rest acc
    by_cases h : n < 10
    · rw [natToChars]
      simp only [h, dif_pos, List.singleton_append, List.length_singleton, pow_one]
      rw [parseNatAux]
      simp [isDigit_digitChar n h, digitVal_digitChar n h]
    · have hlt : n / 10 < n := Nat.div_lt_self (by omega) (by omega)
      have step : natToChars n = natToChars (n / 10) ++ [Nat.digitChar (n % 10)] := by
        rw [natToChars]; simp [h]
      rw [step, List.append_assoc, ih (n / 10) hlt, List.singleton_append, parseNatAux]
      have hd : (Nat.digitChar (n % 10)).isDigit = true := isDigit_digitChar _ (by omega)
      have hv : digitVal (Nat.digitChar (n % 10)) = n % 10 := digitVal_digitChar _ (by omega)
      simp only [hd, if_true, hv, List.length_append, List.length_singleton]
      congr 1
      have : n = 10 * (n / 10) + n % 10 := (Nat.div_add_mod n 10).symm
      ring_nf
      omega

/-- The head of `rest` is not a digit (so a greedy number parse stops there). -/
def headNonDigit (l : List Char) : Bool :=
  match l with
  | [] => true
  | c :: _ => ! c.isDigit

theorem parseNatAux_stop (rest : List Char) (acc : Nat) (h : headNonDigit rest = true) :
    parseNatAux rest acc = (acc, rest) := by
  cases rest with
  | nil => rfl
  | cons c cs =>
    simp only [headNonDigit, Bool.not_eq_true'] at h
    rw [parseNatAux]
    simp [h]

theorem isDigit_ne_specials (c : Char) (h : c.isDigit = true) :
    ¬ c = '"' ∧ ¬ c = '-' ∧ ¬ c = 't' ∧ ¬ c = 'f' ∧ ¬ c = 'n' ∧
      ¬ c = '\x7b' ∧ ¬ c = '\x7d' ∧ ¬ c = '[' ∧ ¬ c = ']' ∧ ¬ c = ',' ∧ ¬ c = ':' := by
  refine ⟨?_, ?_, ?_, ?_, ?_, ?_, ?_, ?_, ?_, ?_, ?_⟩ <;>
    (rintro rfl; revert h; decide)

theorem stringMk_toList (s : String) : String.mk s.toList = s := rfl

theorem parseJVal_jstr (s : String) (rest : List Char) :
    parseJVal (encJVal (JVal.jstr s) ++ rest) = some (JVal.jstr s, rest) := by
  have : encJVal (JVal.jstr s) ++ rest = '"' :: (escapeChars s.toList ++ '"' :: rest) := by
    simp [encJVal]
  rw [this, parseJVal.eq_def]
  simp [unescBody_escape, stringMk_toList]

theorem parseJVal_jnum (n : Int) (rest : List Char) (hrest : headNonDigit rest = true) :
    parseJVal (encJVal (JVal.jnum n) ++ rest) = some (JVal.jnum n, rest) := by
  by_cases hneg : n < 0
  · have hmk : encJVal (JVal.jnum n) ++ rest = '-' :: (natToChars (-n).toNat ++ rest) := by
      simp [encJVal, encInt, hneg]
    obtain ⟨c, cs, hc, hd⟩ := natToChars_cons (-n).toNat
    rw [hmk, parseJVal.eq_def]
    have h1 : ¬ ('-' : Char) = '"' := by decide
    simp only [h1, if_false, if_pos rfl]
    rw [hc, List.cons_append]
    simp only [hd, if_true]
    rw [← List.cons_append, ← hc, parseNatAux_natToChars, parseNatAux_stop _ _ hrest]
    have : (((-n).toNat : Nat) : Int) = -n := Int.toNat_of_nonneg (by omega)
    simp [this]
  · have hmk : encJVal (JVal.jnum n) ++ rest = natToChars n.toNat ++ rest := by
      simp [encJVal, encInt, hneg]
    obtain ⟨c, cs, hc, hd⟩ := natToChars_cons n.toNat
    rw [hmk, hc, List.cons_append, parseJVal.eq_def]
    obtain ⟨hq, hm, _⟩ := isDigit_ne_specials c hd
    simp only [hq, hm, if_false, hd, if_true]
    rw [← List.cons_append, ← hc, parseNatAux_natToChars, parseNatAux_stop _ _ hrest]
    have : ((n.toNat : Nat) : Int) = n := Int.toNat_of_nonneg (by omega)
    simp [this]

theorem parseJVal_jbool (b : Bool) (rest : List Char) :
    parseJVal (encJVal (JVal.jbool b) ++ rest) = some (JVal.jbool b, rest) := by
  cases b
  · rw [show encJVal (JVal.jbool false) ++ rest = 'f' :: 'a' :: 'l' :: 's' :: 'e' :: rest from rfl,
      parseJVal.eq_def]
    norm_num
    simp +decide
  · rw [show encJVal (JVal.jbool true) ++ rest = 't' :: 'r' :: 'u' :: 'e' :: rest from rfl,
      parseJVal.eq_def]
    norm_num
    simp +decide

theorem parseJVal_jnull (rest : List Char) :
    parseJVal (encJVal JVal.jnull ++ rest) = some (JVal.jnull, rest) := by
  rw [show encJVal JVal.jnull ++ rest = 'n' :: 'u' :: 'l' :: 'l' :: rest from rfl,
    parseJVal.eq_def]
  norm_num
  simp +decide

theorem parseJVal_encJVal (v : JVal) (rest : List Char)
    (hnum : ∀ n, v = JVal.jnum n → headNonDigit rest = true) :
    parseJVal (encJVal v ++ rest) = some (v, rest) := by
  cases v with
  | jstr s => exact parseJVal_jstr s rest
  | jnum n => exact parseJVal_jnum n rest (hnum n rfl)
  | jbool b => exact parseJVal_jbool b rest
  | jnull => exact parseJVal_jnull rest

theorem parseField_encField (k : String) (v : JVal) (rest : List Char)
    (hnum : ∀ n, v = JVal.jnum n → headNonDigit rest = true) :
    parseField (encField k v ++ rest) = some ((k, v), rest) := by
  have hsh : encField k v ++ rest =
      '"' :: (escapeChars k.toList ++ '"' :: (':' :: (encJVal v ++ rest))) := by
    simp [encField]
  rw [hsh, parseField]
  rw [unescBody_escape]
  simp [parseJVal_encJVal v rest hnum, stringMk_toList]

theorem parseFieldsAux_encFields :
    ∀ (fs : List (String × JVal)) (fuel : Nat) (rest : List Char),
      fs ≠ [] → fs.length ≤ fuel →
      parseFieldsAux fuel (encFields fs ++ '\x7d' :: rest) = some (fs, rest) := by
  intro fs
  induction fs with
  | nil => intro fuel rest hne _; exact absurd rfl hne
  | cons kv fs' ih =>
    intro fuel rest _ hfuel
    simp only [List.length_cons] at hfuel
    obtain ⟨f, rfl⟩ : ∃ f, fuel = f + 1 := ⟨fuel - 1, by omega⟩
    cases fs' with
    | nil =>
      have hsh : encFields [kv] ++ '\x7d' :: rest = encField kv.1 kv.2 ++ '\x7d' :: rest := by
        simp [encFields]
      rw [parseFieldsAux, hsh,
        parseField_encField kv.1 kv.2 ('\x7d' :: rest)
          (fun _ _ => by simp +decide [headNonDigit])]
      norm_num
    | cons kv2 fs'' =>
      have hsh : encFields (kv :: kv2 :: fs'') ++ '\x7d' :: rest =
          encField kv.1 kv.2 ++ ',' :: (encFields (kv2 :: fs'') ++ '\x7d' :: rest) := by
        simp [encFields]
      rw [parseFieldsAux, hsh,
        parseField_encField kv.1 kv.2 _ (fun _ _ => by simp +decide [headNonDigit])]
      have hrec := ih f rest (by simp) (by simp only [List.length_cons] at hfuel ⊢; omega)
      norm_num [hrec]

theorem encFields_cons (kv : String × JVal) (fs : List (String × JVal)) :
    ∃ t, encFields (kv :: fs) = '"' :: t := by
  cases fs with
  | nil =>
    refine ⟨escapeChars kv.1.toList ++ '"' :: ':' :: encJVal kv.2, ?_⟩
    simp [encFields, encField]
  | cons kv2 fs' =>
    refine ⟨escapeChars kv.1.toList ++ '"' :: ':' :: (encJVal kv.2 ++ ',' :: encFields (kv2 :: fs')), ?_⟩
    simp [encFields, encField]

theorem parseObj_encObj (fs : List (String × JVal)) (fuel : Nat) (rest : List Char)
    (hfuel : fs.length ≤ fuel) :
    parseObj fuel (encObj fs ++ rest) = some (fs, rest) := by
  cases fs with
  | nil => simp [encObj, encFields, parseObj]
  | cons kv fs' =>
    obtain ⟨t, ht⟩ := encFields_cons kv fs'
    have hsh : encObj (kv :: fs') ++ rest =
        '\x7b' :: ('"' :: (t ++ '\x7d' :: rest)) := by
      simp [encObj, ht]
    have hback : '"' :: (t ++ '\x7d' :: rest) = encFields (kv :: fs') ++ '\x7d' :: rest := by
      simp [ht]
    rw [hsh, parseObj]
    · rw [hback]
      exact parseFieldsAux_encFields (kv :: fs') fuel rest (by simp) hfuel
    · intro r h
      simp +decide at h

theorem encObjs_cons (o : List (String × JVal)) (objs : List (List (String × JVal))) :
    ∃ t, encObjs (o :: objs) = '\x7b' :: t := by
  cases objs with
  | nil =>
    refine ⟨encFields o ++ ['\x7d'], ?_⟩
    simp [encObjs, encObj]
  | cons o2 objs' =>
    refine ⟨(encFields o ++ ['\x7d']) ++ ',' :: encObjs (o2 :: objs'), ?_⟩
    simp [encObjs, encObj]

theorem parseArrAux_encObjs :
    ∀ (objs : List (List (String × JVal))) (fuel : Nat) (rest : List Char),
      objs ≠ [] → (∀ o ∈ objs, objs.length + o.length ≤ fuel) →
      parseArrAux fuel (encObjs objs ++ ']' :: rest) = some (objs, rest) := by
  intro objs
  induction objs with
  | nil => intro fuel rest hne _; exact absurd rfl hne
  | cons o objs' ih =>
    intro fuel rest _ hfuel
    have hhead := hfuel o (by simp)
    simp only [List.length_cons] at hhead
    obtain ⟨f, rfl⟩ : ∃ f, fuel = f + 1 := ⟨fuel - 1, by omega⟩
    have hof : o.length ≤ f := by omega
    cases objs' with
    | nil =>
      have hsh : encObjs [o] ++ ']' :: rest = encObj o ++ ']' :: rest := by
        simp [encObjs]
      rw [parseArrAux, hsh, parseObj_encObj o f (']' :: rest) hof]
      norm_num
    | cons o2 objs'' =>
      have hsh : encObjs (o :: o2 :: objs'') ++ ']' :: rest =
          encObj o ++ ',' :: (encObjs (o2 :: objs'') ++ ']' :: rest) := by
        simp [encObjs]
      rw [parseArrAux, hsh, parseObj_encObj o f _ hof]
      have hrec := ih f rest (by simp) (by
        intro o' ho'
        have := hfuel o' (List.mem_cons_of_mem o ho')
        simp only [List.length_cons] at this ⊢
        omega)
      norm_num [hrec]

theorem parseArr_encArr (objs : List (List (String × JVal))) (fuel : Nat) (rest : List Char)
    (hfuel : ∀ o ∈ objs, objs.length + o.length ≤ fuel) :
    parseArr fuel (encArr objs ++ rest) = some (objs, rest) := by
  cases objs with
  | nil => simp [encArr, encObjs, parseArr]
  | cons o objs' =>
    obtain ⟨t, ht⟩ := encObjs_cons o objs'
    have hsh : encArr (o :: objs') ++ rest = '[' :: ('\x7b' :: (t ++ ']' :: rest)) := by
      simp [encArr, ht]
    have hback : '\x7b' :: (t ++ ']' :: rest) = encObjs (o :: objs') ++ ']' :: rest := by
      simp [ht]
    rw [hsh, parseArr]
    · rw [hback]
      exact parseArrAux_encObjs (o :: objs') fuel rest (by simp) hfuel
    · intro r h
      simp +decide at h

theorem length_encFields (fs : List (String × JVal)) : fs.length ≤ (encFields fs).length := by
  induction fs with
  | nil => simp [encFields]
  | cons kv fs' ih =>
    cases fs' with
    | nil => simp [encFields, encField]
    | cons kv2 fs'' =>
      have hsh : encFields (kv :: kv2 :: fs'') =
          encField kv.1 kv.2 ++ ',' :: encFields (kv2 :: fs'') := by simp [encFields]
      rw [hsh]
      have h1 : 1 ≤ (encField kv.1 kv.2).length := by simp [encField]
      simp only [List.length_cons, List.length_append, List.length_cons] at *
      omega

theorem length_encObj (fs : List (String × JVal)) : fs.length + 2 ≤ (encObj fs).length := by
  have := length_encFields fs
  simp [encObj]
  omega

theorem length_encObjs (objs : List (List (String × JVal))) :
    objs.length ≤ (encObjs objs).length := by
  induction objs with
  | nil => simp [encObjs]
  | cons o objs' ih =>
    cases objs' with
    | nil =>
      have := length_encObj o
      simp [encObjs]
      omega
    | cons o2 objs'' =>
      have h := length_encObj o
      have hsh : encObjs (o :: o2 :: objs'') = encObj o ++ ',' :: encObjs (o2 :: objs'') := by
        simp [encObjs]
      rw [hsh]
      simp only [List.length_cons, List.length_append, List.length_cons] at *
      omega

theorem fuel_sufficient (objs : List (List (String × JVal))) :
    ∀ o ∈ objs, objs.length + o.length ≤ (encArr objs).length := by
  induction objs with
  | nil => simp
  | cons o0 objs' ih =>
    intro o ho
    have harr : (encArr (o0 :: objs')).length = (encObjs (o0 :: objs')).length + 2 := by
      simp [encArr]
    rcases List.mem_cons.mp ho with rfl | ho'
    · cases objs' with
      | nil =>
        have := length_encObj o
        simp [encObjs] at harr ⊢
        omega
      | cons o2 objs'' =>
        have h1 := length_encObj o
        have h2 := length_encObjs (o2 :: objs'')
        have hsh : encObjs (o :: o2 :: objs'') = encObj o ++ ',' :: encObjs (o2 :: objs'') := by
          simp [encObjs]
        rw [hsh] at harr
        simp only [List.length_cons, List.length_append, List.length_cons] at *
        omega
    · have hrec := ih o ho'
      cases objs' with
      | nil => simp at ho'
      | cons o2 objs'' =>
        have h0 := length_encObj o0
        have hsh : encObjs (o0 :: o2 :: objs'') = encObj o0 ++ ',' :: encObjs (o2 :: objs'') := by
          simp [encObjs]
        rw [hsh] at harr
        have harr2 : (encArr (o2 :: objs'')).length = (encObjs (o2 :: objs'')).length + 2 := by
          simp [encArr]
        rw [harr2] at hrec
        simp only [List.length_cons, List.length_append, List.length_cons] at *
        omega

theorem category_fromFields_toFields (c : Category) :
    Category.fromFields (Category.toFields c) = some c := by
  rfl

theorem timeBlock_fromFields_toFields (b : TimeBlock) :
    TimeBlock.fromFields (TimeBlock.toFields b) = some b := by
  obtain ⟨i, d, h, cat, n, uid, una, uco⟩ := b
  cases cat <;> cases uid <;> cases una <;> cases uco <;> rfl

theorem todo_fromFields_toFields (t : Todo) :
    Todo.fromFields (Todo.toFields t) = some t := by
  obtain ⟨i, d, tx, cp, o, uid, una, uco⟩ := t
  cases uid <;> cases una <;> cases uco <;> rfl

theorem event_fromFields_toFields (e : Event) :
    Event.fromFields (Event.toFields e) = some e := by
  obtain ⟨i, d, t, tm, nt, uid, una, uco⟩ := e
  cases tm <;> cases nt <;> cases uid <;> cases una <;> cases uco <;> rfl

theorem weeklyGoal_fromFields_toFields (g : WeeklyGoal) :
    WeeklyGoal.fromFields (WeeklyGoal.toFields g) = some g := by
  obtain ⟨i, ws, tx, cp, o, uid, una, uco⟩ := g
  cases uid <;> cases una <;> cases uco <;> rfl

theorem decodeAll_map_of_inverse {α : Type} (fromF : List (String × JVal) → Option α)
    (toF : α → List (String × JVal)) (h : ∀ x, fromF (toF x) = some x) (l : List α) :
    decodeAll fromF (l.map toF) = some l := by
  induction l with
  | nil => rfl
  | cons x xs ih => simp [decodeAll, h, ih]

theorem parseWith_stringifyWith {α : Type} (toF : α → List (String × JVal))
    (fromF : List (String × JVal) → Option α) (h : ∀ x, fromF (toF x) = some x)
    (l : List α) :
    parseWith fromF (stringifyWith toF l) = some l := by
  unfold parseWith stringifyWith
  have hlist : (String.mk (encArr (l.map toF))).toList = encArr (l.map toF) := rfl
  rw [hlist]
  have harr : parseArr (encArr (l.map toF)).length (encArr (l.map toF)) =
      some (l.map toF, []) := by
    have := parseArr_encArr (l.map toF) (encArr (l.map toF)).length []
      (fuel_sufficient (l.map toF))
    simpa using this
  rw [harr]
  simp [decodeAll_map_of_inverse fromF toF h]

theorem aListGet_upsert {β : Type} (k : String) (v : β) (st : List (String × β)) :
    AList.get? k (AList.upsert k v st) = some v := by
  induction st with
  | nil => simp [AList.upsert, AList.get?]
  | cons p rest ih =>
    by_cases hk : p.1 = k
    · simp [AList.upsert, AList.get?, hk]
    · simp [AList.upsert, AList.get?, hk, ih]

theorem stringifyWith_ne_empty {α : Type} (toF : α → List (String × JVal)) (l : List α) :
    ¬ stringifyWith toF l = "" := by
  intro h
  have : (stringifyWith toF l).toList = ("" : String).toList := by rw [h]
  simp [stringifyWith, encArr] at this

theorem loadCollection_saveCollection {α : Type} (toF : α → List (String × JVal))
    (fromF : List (String × JVal) → Option α) (h : ∀ x, fromF (toF x) = some x)
    (key : String) (d : List α) (st : Storage) (l : List α) :
    loadCollection fromF key d (saveCollection toF key l st) = l := by
  unfold loadCollection saveCollection loadFromStorage saveToStorage
  rw [aListGet_upsert]
  norm_num [stringifyWith_ne_empty toF l, parseWith_stringifyWith toF fromF h]

/-! # Quick-schedule parsing facts -/

theorem parse_example_swim : parseScheduleInput "19.5-20.5 수영" = some ⟨39, 41, "수영"⟩ := by
  have hm : matchSchedule ("19.5-20.5 수영").toList =
      some ((['1', '9'], ['5']), (['2', '0'], ['5']), ['수', '영']) := by decide
  rw [parseScheduleInput, hm]
  have h1 : ratOfParts ['1', '9'] ['5'] = 39 / 2 := by
    rw [ratOfParts, show natOfDigits ['1', '9'] = 19 from by decide,
      show natOfDigits ['5'] = 5 from by decide]
    norm_num
  have h2 : ratOfParts ['2', '0'] ['5'] = 41 / 2 := by
    rw [ratOfParts, show natOfDigits ['2', '0'] = 20 from by decide,
      show natOfDigits ['5'] = 5 from by decide]
    norm_num
  simp only [h1, h2]
  have hif : ¬ ((39 / 2 : ℚ) < 0 || (24 : ℚ) < 41 / 2 || (41 / 2 : ℚ) ≤ 39 / 2) = true := by
    norm_num
  have hs1 : slotOfTime (39 / 2) = 39 := by
    rw [slotOfTime]
    norm_num
  have hs2 : slotOfTime (41 / 2) = 41 := by
    rw [slotOfTime]
    norm_num
  simp [hif, hs1, hs2]
  decide

theorem parse_example_lunch : parseScheduleInput "10-11 점심" = some ⟨20, 22, "점심"⟩ := by
  have hm : matchSchedule ("10-11 점심").toList =
      some ((['1', '0'], []), (['1', '1'], []), ['점', '심']) := by decide
  rw [parseScheduleInput, hm]
  have h1 : ratOfParts ['1', '0'] [] = 10 := by
    rw [ratOfParts, show natOfDigits ['1', '0'] = 10 from by decide,
      show natOfDigits [] = 0 from by decide]
    norm_num
  have h2 : ratOfParts ['1', '1'] [] = 11 := by
    rw [ratOfParts, show natOfDigits ['1', '1'] = 11 from by decide,
      show natOfDigits [] = 0 from by decide]
    norm_num
  simp only [h1, h2]
  have hif : ¬ ((10 : ℚ) < 0 || (24 : ℚ) < 11 || (11 : ℚ) ≤ 10) = true := by norm_num
  have hs1 : slotOfTime 10 = 20 := by
    rw [slotOfTime]
    norm_num
  have hs2 : slotOfTime 11 = 22 := by
    rw [slotOfTime]
    norm_num
  simp [hif, hs1, hs2]
  decide

/-! # Claim theorems -/

/-- Claim C2: the quick-schedule input `"19.5-20.5 수영"` parses to start
slot 39, end slot 41 and title `"수영"`, and `handleQuickAdd` on it creates
exactly the two TimeBlocks at slots 39 and 40 (note = title) plus exactly
one Event with time `"19:30~20:30"`; `"10-11 점심"` parses to slots 20-22
and produces exactly two TimeBlocks. -/
theorem C2_quick_add_examples :
    parseScheduleInput "19.5-20.5 수영" = some ⟨39, 41, "수영"⟩ ∧
    ((MonthlyView.handleQuickAdd "19.5-20.5 수영" "2025-01-15" soloWorld).app.data.timeBlocks.map
        (fun b => (b.date, b.hour, b.note)) =
      [("2025-01-15", 39, "수영"), ("2025-01-15", 40, "수영")] ∧
     (MonthlyView.handleQuickAdd "19.5-20.5 수영" "2025-01-15" soloWorld).app.data.events.map
        (fun e => (e.date, e.title, e.time)) =
      [("2025-01-15", "수영", some "19:30~20:30")] ∧
     (MonthlyView.handleQuickAdd "19.5-20.5 수영" "2025-01-15" soloWorld).app.store.timeBlocks.length = 2 ∧
     (MonthlyView.handleQuickAdd "19.5-20.5 수영" "2025-01-15" soloWorld).app.store.events.length = 1) ∧
    parseScheduleInput "10-11 점심" = some ⟨20, 22, "점심"⟩ ∧
    ((MonthlyView.handleQuickAdd "10-11 점심" "2025-01-15" soloWorld).app.data.timeBlocks.map
        (fun b => b.hour) = [20, 21] ∧
     (MonthlyView.handleQuickAdd "10-11 점심" "2025-01-15" soloWorld).app.data.events.length = 1) := by
  have ht1 : jsTrim "19.5-20.5 수영" = "19.5-20.5 수영" := by decide
  have ht2 : jsTrim "10-11 점심" = "10-11 점심" := by decide
  refine ⟨parse_example_swim, ?_, parse_example_lunch, ?_⟩
  · rw [MonthlyView.handleQuickAdd, ht1, parse_example_swim]
    refine ⟨by decide, by decide, by decide, by decide⟩
  · rw [MonthlyView.handleQuickAdd, ht2, parse_example_lunch]
    refine ⟨by decide, by decide⟩

/-- Claim C3: quick-schedule input whose parsed bounds are invalid
(`start < 0`, `end > 24`, or `start ≥ end`) is rejected by
`parseScheduleInput`, and `handleQuickAdd` performs no mutation at all:
the whole world (view, local store and remote store) is unchanged. -/
theorem C3_invalid_input_rejected (input dateStr : String) (w : World)
    (n1 n2 : List Char × List Char) (title : List Char)
    (hm : matchSchedule (jsTrim input).toList = some (n1, n2, title))
    (hbad : ratOfParts n1.1 n1.2 < 0 ∨ 24 < ratOfParts n2.1 n2.2 ∨
      ratOfParts n2.1 n2.2 ≤ ratOfParts n1.1 n1.2) :
    parseScheduleInput (jsTrim input) = none ∧
    MonthlyView.handleQuickAdd input dateStr w = w := by
  have hnone : parseScheduleInput (jsTrim input) = none := by
    rw [parseScheduleInput, hm]
    have : (ratOfParts n1.1 n1.2 < 0 || 24 < ratOfParts n2.1 n2.2 ||
        ratOfParts n2.1 n2.2 ≤ ratOfParts n1.1 n1.2) = true := by
      rcases hbad with h | h | h <;> simp [h]
    simp [this]
  refine ⟨hnone, ?_⟩
  rw [MonthlyView.handleQuickAdd]
  by_cases hempty : (jsTrim input).isEmpty
  · simp [hempty]
  · simp [hempty, hnone]

/-- Witness for C3 at the concrete rejected input `"11-10 foo"`. -/
theorem C3_witness :
    parseScheduleInput (jsTrim "11-10 foo") = none ∧
    MonthlyView.handleQuickAdd "11-10 foo" "2025-01-15" soloWorld = soloWorld := by
  have h := C3_invalid_input_rejected "11-10 foo" "2025-01-15" soloWorld
    (['1', '1'], []) (['1', '0'], []) ['f', 'o', 'o'] (by decide)
    (Or.inr (Or.inr (by
      rw [ratOfParts, ratOfParts, show natOfDigits ['1', '1'] = 11 from by decide,
        show natOfDigits ['1', '0'] = 10 from by decide, show natOfDigits [] = 0 from by decide]
      norm_num)))
  exact h

/-- The room read back right after a `modifyRoom` on the same code. -/
theorem room_modifyRoom (code : String) (f : RoomData → RoomData) (db : RemoteDB) :
    (RemoteDB.modifyRoom code f db).room code = f (db.room code) := by
  simp [RemoteDB.modifyRoom, RemoteDB.room, aListGet_upsert]

/-- Claim C1 counterexample: with devices A and B joined to room `ROOM42`,
B's `addTodo` writes B's stamped todo into the room's shared `todos`
collection, and A's next todos-snapshot merge cycle publishes that record in
A's view even though its ownerId (`"userB"`) differs from A's id. -/
theorem C1_counterexample :
    stateA.roomCode = some "ROOM42" ∧ stateA.currentUser = some userA ∧
    (Ctx.onTodosSnapshot ⟨stateA, (Ctx.addTodo todoB ⟨stateB, {}⟩).db⟩).app.data.todos =
      [Ctx.stampTodo userB todoB] ∧
    (Ctx.stampTodo userB todoB).userId = some "userB" ∧
    ¬ ((some "userB" : Option String) = some userA.id) := by decide

/-- Claim C1 (amended): when room-joined, each todos / weeklyGoals snapshot
replaces the published view's collection wholesale with the room-wide
collection — including records of other members; the personal types are
shared through the room exactly like TimeBlocks and Events, with no
ownerId filter. -/
theorem C1_room_collections_shared (w : World) (code : String)
    (h : w.app.roomCode = some code) :
    (Ctx.onTodosSnapshot w).app.data.todos = Ctx.todosSnapshot w.db code ∧
    (Ctx.onWeeklyGoalsSnapshot w).app.data.weeklyGoals = Ctx.weeklyGoalsSnapshot w.db code := by
  simp [Ctx.onTodosSnapshot, Ctx.onWeeklyGoalsSnapshot, h, Ctx.applyTodosSnapshot,
    Ctx.applyWeeklyGoalsSnapshot]

/-- Witness for the amended C1 at a concrete room-joined state. -/
theorem C1_witness :
    (Ctx.onTodosSnapshot ⟨stateA, {}⟩).app.data.todos = Ctx.todosSnapshot ({} : RemoteDB) "ROOM42" ∧
    (Ctx.onWeeklyGoalsSnapshot ⟨stateA, {}⟩).app.data.weeklyGoals =
      Ctx.weeklyGoalsSnapshot ({} : RemoteDB) "ROOM42" :=
  C1_room_collections_shared ⟨stateA, {}⟩ "ROOM42" rfl

/-- Claim C6 counterexample: `updateTodo` on a record that carries another
member's ownerId but no ownerName produces a mixed record — the foreign
`userId` survives while `userName` is filled from the acting identity — so
the three owner fields are not stamped together from the acting user. -/
theorem C6_counterexample :
    (Ctx.updateTodo mixedTodo worldC6).app.data.todos.map
        (fun t => (t.userId, t.userName, t.userColor)) =
      [(some "userB", some "Alice", some "#e8a87c")] ∧
    worldC6.app.currentUser = some userA ∧ userA.id = "userA" ∧ userA.name = "Alice" ∧
    ¬ ("userB" = "userA") := by decide

/-- Claim C6 (amended): the add operations and `updateTimeBlock` stamp all
three owner fields together from the acting identity; the update operations
for Todos, Events and WeeklyGoals fall back to the acting identity only
field-by-field (`record.userX || currentUser.x`), so they stamp the full
acting identity exactly when the incoming record carries no owner fields. -/
theorem C6_owner_stamping (w : World) (u : User) (code : String)
    (hu : w.app.currentUser = some u) (hc : w.app.roomCode = some code) :
    (∀ block : TimeBlock,
      AList.get? block.id ((Ctx.updateTimeBlock block w).db.room code).timeBlocks =
        some (Ctx.stampTimeBlock u block)) ∧
    (∀ todo : Todo,
      AList.get? todo.id ((Ctx.addTodo todo w).db.room code).todos =
        some (Ctx.stampTodo u todo)) ∧
    (∀ event : Event,
      AList.get? event.id ((Ctx.addEvent event w).db.room code).events =
        some (Ctx.stampEvent u event)) ∧
    (∀ goal : WeeklyGoal,
      AList.get? goal.id ((Ctx.addWeeklyGoal goal w).db.room code).weeklyGoals =
        some (Ctx.stampWeeklyGoal u goal)) ∧
    (∀ todo : Todo, todo.userId = none → todo.userName = none → todo.userColor = none →
      AList.get? todo.id ((Ctx.updateTodo todo w).db.room code).todos =
        some (Ctx.stampTodo u todo)) ∧
    (∀ event : Event, event.userId = none → event.userName = none → event.userColor = none →
      AList.get? event.id ((Ctx.updateEvent event w).db.room code).events =
        some (Ctx.stampEvent u event)) ∧
    (∀ goal : WeeklyGoal, goal.userId = none → goal.userName = none → goal.userColor = none →
      AList.get? goal.id ((Ctx.updateWeeklyGoal goal w).db.room code).weeklyGoals =
        some (Ctx.stampWeeklyGoal u goal)) := by
  refine ⟨?_, ?_, ?_, ?_, ?_, ?_, ?_⟩
  · intro block
    simp [Ctx.updateTimeBlock, hu, hc, RemoteDB.setTimeBlockDoc, room_modifyRoom, aListGet_upsert]
  · intro todo
    simp [Ctx.addTodo, hu, hc, RemoteDB.setTodoDoc, room_modifyRoom, aListGet_upsert]
  · intro event
    simp [Ctx.addEvent, hu, hc, RemoteDB.setEventDoc, room_modifyRoom, aListGet_upsert]
  · intro goal
    simp [Ctx.addWeeklyGoal, hu, hc, RemoteDB.setWeeklyGoalDoc, room_modifyRoom, aListGet_upsert]
  · intro todo h1 h2 h3
    have : Ctx.restampTodo u todo = Ctx.stampTodo u todo := by
      simp [Ctx.restampTodo, Ctx.stampTodo, jsOr, h1, h2, h3]
    simp [Ctx.updateTodo, hu, hc, RemoteDB.setTodoDoc, room_modifyRoom, aListGet_upsert, this]
  · intro event h1 h2 h3
    have : Ctx.restampEvent u event = Ctx.stampEvent u event := by
      simp [Ctx.restampEvent, Ctx.stampEvent, jsOr, h1, h2, h3]
    simp [Ctx.updateEvent, hu, hc, RemoteDB.setEventDoc, room_modifyRoom, aListGet_upsert, this]
  · intro goal h1 h2 h3
    have : Ctx.restampWeeklyGoal u goal = Ctx.stampWeeklyGoal u goal := by
      simp [Ctx.restampWeeklyGoal, Ctx.stampWeeklyGoal, jsOr, h1, h2, h3]
    simp [Ctx.updateWeeklyGoal, hu, hc, RemoteDB.setWeeklyGoalDoc, room_modifyRoom,
      aListGet_upsert, this]

/-- Witness for the amended C6 at a concrete room-joined state. -/
theorem C6_witness :
    AList.get? todoB.id ((Ctx.addTodo todoB ⟨stateA, {}⟩).db.room "ROOM42").todos =
      some (Ctx.stampTodo userA todoB) :=
  (C6_owner_stamping ⟨stateA, {}⟩ userA "ROOM42" rfl rfl).2.1 todoB

/-- Claim C7 counterexample: `leaveRoom` clears the local room code but
performs no remote write — user A's membership record is still present in
the room's remote member set afterwards, so other members do not observe
the departure. -/
theorem C7_counterexample :
    AList.get? userA.id (dbWithA.room "ROOM42").users = some userA ∧
    (Ctx.leaveRoom ⟨stateA, dbWithA⟩).app.roomCode = none ∧
    AList.get? userA.id ((Ctx.leaveRoom ⟨stateA, dbWithA⟩).db.room "ROOM42").users =
      some userA ∧
    (Ctx.leaveRoom ⟨stateA, dbWithA⟩).db = dbWithA := by decide

/-- Claim C7 (amended): `leaveRoom` clears the locally persisted room code,
marks the provider disconnected, empties the member list, resets the
published view to the local store's contents, and the listener effect that
follows tears all snapshot subscriptions down; the remote store — the
membership record included — is left untouched. -/
theorem C7_leaveRoom_is_local (w : World) :
    (Ctx.leaveRoom w).app.roomCode = none ∧
    (Ctx.leaveRoom w).app.isConnected = false ∧
    (Ctx.leaveRoom w).app.roomUsers = [] ∧
    (Ctx.leaveRoom w).app.data = dataFromStore w.app.store ∧
    (Ctx.leaveRoom w).db = w.db ∧
    (Ctx.roomEffect (Ctx.leaveRoom w)).app.listeners = [] ∧
    (Ctx.roomEffect (Ctx.leaveRoom w)).db = w.db := by
  refine ⟨rfl, rfl, rfl, rfl, rfl, ?_, ?_⟩ <;> simp [Ctx.roomEffect, Ctx.leaveRoom]

/-- Claim C9: for each of the five collections, `save` followed by `load`
returns the saved entity array unchanged, for every starting storage state
and independently of the supplied default. -/
theorem C9_save_load_round_trip (st : Storage)
    (cats : List Category) (blocks : List TimeBlock) (todos : List Todo)
    (events : List Event) (goals : List WeeklyGoal)
    (d1 : List Category) (d2 : List TimeBlock) (d3 : List Todo)
    (d4 : List Event) (d5 : List WeeklyGoal) :
    loadCollection Category.fromFields "planner_categories" d1
      (saveCollection Category.toFields "planner_categories" cats st) = cats ∧
    loadCollection TimeBlock.fromFields "planner_timeBlocks" d2
      (saveCollection TimeBlock.toFields "planner_timeBlocks" blocks st) = blocks ∧
    loadCollection Todo.fromFields "planner_todos" d3
      (saveCollection Todo.toFields "planner_todos" todos st) = todos ∧
    loadCollection Event.fromFields "planner_events" d4
      (saveCollection Event.toFields "planner_events" events st) = events ∧
    loadCollection WeeklyGoal.fromFields "planner_weeklyGoals" d5
      (saveCollection WeeklyGoal.toFields "planner_weeklyGoals" goals st) = goals :=
  ⟨loadCollection_saveCollection _ _ category_fromFields_toFields _ _ _ _,
   loadCollection_saveCollection _ _ timeBlock_fromFields_toFields _ _ _ _,
   loadCollection_saveCollection _ _ todo_fromFields_toFields _ _ _ _,
   loadCollection_saveCollection _ _ event_fromFields_toFields _ _ _ _,
   loadCollection_saveCollection _ _ weeklyGoal_fromFields_toFields _ _ _ _⟩

/-- Claim C10: the store's update-by-id operations are asymmetric:
`updateTimeBlock` appends the record when its id is absent (upsert), while
`updateTodo`, `updateEvent` and `updateWeeklyGoal` leave the collection
unchanged when the id is absent. -/
theorem C10_update_asymmetry :
    (∀ (block : TimeBlock) (blocks : List TimeBlock),
      (∀ b ∈ blocks, ¬ b.id = block.id) →
      localStore.updateTimeBlock block blocks = blocks ++ [block]) ∧
    (∀ (todo : Todo) (todos : List Todo),
      (∀ t ∈ todos, ¬ t.id = todo.id) → localStore.updateTodo todo todos = todos) ∧
    (∀ (event : Event) (events : List Event),
      (∀ e ∈ events, ¬ e.id = event.id) → localStore.updateEvent event events = events) ∧
    (∀ (goal : WeeklyGoal) (goals : List WeeklyGoal),
      (∀ g ∈ goals, ¬ g.id = goal.id) → localStore.updateWeeklyGoal goal goals = goals) := by
  refine ⟨?_, ?_, ?_, ?_⟩
  · intro block blocks h
    induction blocks with
    | nil => simp [localStore.updateTimeBlock]
    | cons b bs ih =>
      rw [localStore.updateTimeBlock, if_neg (h b (by simp))]
      simp only [List.cons_append, List.cons.injEq, true_and]
      exact ih (fun x hx => h x (by simp [hx]))
  · intro todo todos h
    induction todos with
    | nil => simp [localStore.updateTodo]
    | cons t ts ih =>
      rw [localStore.updateTodo, if_neg (h t (by simp))]
      simp only [List.cons.injEq, true_and]
      exact ih (fun x hx => h x (by simp [hx]))
  · intro event events h
    induction events with
    | nil => simp [localStore.updateEvent]
    | cons e es ih =>
      rw [localStore.updateEvent, if_neg (h e (by simp))]
      simp only [List.cons.injEq, true_and]
      exact ih (fun x hx => h x (by simp [hx]))
  · intro goal goals h
    induction goals with
    | nil => simp [localStore.updateWeeklyGoal]
    | cons g gs ih =>
      rw [localStore.updateWeeklyGoal, if_neg (h g (by simp))]
      simp only [List.cons.injEq, true_and]
      exact ih (fun x hx => h x (by simp [hx]))

/-- Witness for C10 on singleton/empty collections with fresh ids. -/
theorem C10_witness :
    localStore.updateTimeBlock blockOtherOwner [] = [] ++ [blockOtherOwner] ∧
    localStore.updateTodo todoB [mixedTodo] = [mixedTodo] ∧
    localStore.updateEvent eventA [] = [] ∧
    localStore.updateWeeklyGoal ⟨"g1", "2025-01-13", "goal", false, 0, none, none, none⟩ [] = [] := by
  have h := C10_update_asymmetry
  exact ⟨h.1 blockOtherOwner [] (by simp),
    h.2.1 todoB [mixedTodo] (by decide),
    h.2.2.1 eventA [] (by simp),
    h.2.2.2 ⟨"g1", "2025-01-13", "goal", false, 0, none, none, none⟩ [] (by simp)⟩

/-! # Optimistic-write lemmas (claim C5) -/

theorem upsert_upsert_same {β : Type} (k : String) (v : β) (l : List (String × β)) :
    AList.upsert k v (AList.upsert k v l) = AList.upsert k v l := by
  induction l with
  | nil => simp [AList.upsert]
  | cons p rest ih =>
    by_cases hk : p.1 = k
    · simp [AList.upsert, hk]
    · simp [AList.upsert, hk, ih]

theorem updateTimeBlock_store_idem (b : TimeBlock) (l : List TimeBlock) :
    localStore.updateTimeBlock b (localStore.updateTimeBlock b l) =
      localStore.updateTimeBlock b l := by
  induction l with
  | nil => simp [localStore.updateTimeBlock]
  | cons x xs ih =>
    by_cases hx : x.id = b.id
    · simp [localStore.updateTimeBlock, hx]
    · simp [localStore.updateTimeBlock, hx, ih]

theorem setTimeBlockDoc_idem (code id : String) (b : TimeBlock) (db : RemoteDB) :
    RemoteDB.setTimeBlockDoc code id b (RemoteDB.setTimeBlockDoc code id b db) =
      RemoteDB.setTimeBlockDoc code id b db := by
  simp [RemoteDB.setTimeBlockDoc, RemoteDB.modifyRoom, RemoteDB.room, aListGet_upsert,
    upsert_upsert_same]

theorem find?_filter_filter {α : Type} (l : List α) (p q r : α → Bool) :
    ((l.filter p).filter q).find? r = l.find? (fun x => p x && q x && r x) := by
  induction l with
  | nil => simp
  | cons a t ih =>
    by_cases hp : p a <;> by_cases hq : q a <;> by_cases hr : r a <;>
      simp [hp, hq, hr, List.find?_cons, ih] <;>
      (congr 1; funext x; cases hx : p x <;> cases hy : q x <;> simp [hx, hy])

theorem find?_eq_some_of_all {α : Type} (l : List α) (p : α → Bool) (a : α)
    (hex : ∃ x ∈ l, p x = true) (hall : ∀ x ∈ l, p x = true → x = a) :
    l.find? p = some a := by
  induction l with
  | nil => simp at hex
  | cons x t ih =>
    by_cases hx : p x
    · rw [List.find?_cons_of_pos _ hx, hall x (by simp) hx]
    · rw [List.find?_cons_of_neg _ hx]
      refine ih ?_ (fun y hy hpy => hall y (by simp [hy]) hpy)
      obtain ⟨y, hy, hpy⟩ := hex
      rcases List.mem_cons.mp hy with rfl | hy'
      · exact absurd hpy hx
      · exact ⟨y, hy', hpy⟩

/-- Shape of the provider's `updateTimeBlock` when an identity is present. -/
theorem updateTimeBlock_unfold (b : TimeBlock) (w : World) (u : User)
    (hu : w.app.currentUser = some u) :
    Ctx.updateTimeBlock b w =
      ⟨{ w.app with
          store := { w.app.store with
            timeBlocks := localStore.updateTimeBlock b w.app.store.timeBlocks },
          data := { w.app.data with timeBlocks :=
            (if w.app.data.timeBlocks.any (fun x => x.id = b.id) then
              w.app.data.timeBlocks.map
                (fun x => if x.id = b.id then Ctx.stampTimeBlock u b else x)
            else w.app.data.timeBlocks ++ [Ctx.stampTimeBlock u b]) } },
        (match w.app.roomCode with
        | some code => w.db.setTimeBlockDoc code b.id (Ctx.stampTimeBlock u b)
        | none => w.db)⟩ := by
  rw [Ctx.updateTimeBlock, hu]

/-- Claim C5: after a `updateTimeBlock` write in a view whose TimeBlock ids
are unique and where `(date, hour, owner)` addresses at most the written id,
reading the same `(date, hour, ownerId)` through the view immediately
returns the just-written record (hence its note and categoryId); applying
the same record twice equals applying it once; and the view still has no
duplicate ids afterwards. -/
theorem C5_optimistic_read_idempotent (w : World) (b : TimeBlock) (u : User)
    (hu : w.app.currentUser = some u)
    (hnd : (w.app.data.timeBlocks.map (fun x => x.id)).Nodup)
    (huniq : ∀ x ∈ w.app.data.timeBlocks,
      x.date = b.date → x.hour = b.hour → x.userId = some u.id → x.id = b.id) :
    DailyView.viewBlockAt (Ctx.updateTimeBlock b w).app.data b.date u.id b.hour =
      some (Ctx.stampTimeBlock u b) ∧
    (Ctx.stampTimeBlock u b).note = b.note ∧
    (Ctx.stampTimeBlock u b).categoryId = b.categoryId ∧
    Ctx.updateTimeBlock b (Ctx.updateTimeBlock b w) = Ctx.updateTimeBlock b w ∧
    ((Ctx.updateTimeBlock b w).app.data.timeBlocks.map (fun x => x.id)).Nodup := by
  have hstamp_id : (Ctx.stampTimeBlock u b).id = b.id := rfl
  have hshape := updateTimeBlock_unfold b w u hu
  set stamp := Ctx.stampTimeBlock u b with hstamp
  set view := w.app.data.timeBlocks with hview
  have hpred_stamp :
      (decide (stamp.date = b.date) && decide (stamp.userId = some u.id) &&
        decide (stamp.hour = b.hour)) = true := by
    simp [hstamp, Ctx.stampTimeBlock]
  by_cases hany : view.any (fun x => x.id = b.id)
  · -- replace-in-place branch
    have hview1 : (Ctx.updateTimeBlock b w).app.data.timeBlocks =
        view.map (fun x => if x.id = b.id then stamp else x) := by
      rw [hshape]
      show (if (view.any fun x => decide (x.id = b.id)) = true then
          view.map (fun x => if x.id = b.id then stamp else x) else view ++ [stamp]) =
        view.map (fun x => if x.id = b.id then stamp else x)
      rw [if_pos hany]
    obtain ⟨x0, hx0, hx0id⟩ := List.any_eq_true.mp hany
    refine ⟨?_, rfl, rfl, ?_, ?_⟩
    · rw [DailyView.viewBlockAt, hview1, find?_filter_filter]
      refine find?_eq_some_of_all _ _ _ ?_ ?_
      · refine ⟨stamp, List.mem_map.mpr ⟨x0, hx0, ?_⟩, hpred_stamp⟩
        simp [of_decide_eq_true hx0id]
      · intro y hy hpy
        obtain ⟨x, hx, rfl⟩ := List.mem_map.mp hy
        by_cases hid : x.id = b.id
        · simp [hid]
        · exfalso
          simp only [hid, if_false, Bool.and_eq_true, decide_eq_true_eq] at hpy
          exact hid (huniq x hx hpy.1.1 hpy.2 hpy.1.2)
    · -- idempotence
      have hu1 : (Ctx.updateTimeBlock b w).app.currentUser = some u := by
        rw [hshape]; exact hu
      rw [updateTimeBlock_unfold b _ u hu1, hshape]
      have hany1 : (view.map (fun x => if x.id = b.id then stamp else x)).any
          (fun x => x.id = b.id) = true := by
        refine List.any_eq_true.mpr ⟨stamp, List.mem_map.mpr ⟨x0, hx0, ?_⟩, by simp [hstamp_id]⟩
        simp [of_decide_eq_true hx0id]
      simp only [hany, if_true, hany1]
      refine congrArg₂ World.mk ?_ ?_
      · have hmap : (view.map (fun x => if x.id = b.id then stamp else x)).map
            (fun x => if x.id = b.id then stamp else x) =
            view.map (fun x => if x.id = b.id then stamp else x) := by
          rw [List.map_map]
          refine List.map_congr_left (fun x _ => ?_)
          by_cases hid : x.id = b.id <;> simp [hid, hstamp_id]
        simp [hmap, updateTimeBlock_store_idem]
      · cases hrc : w.app.roomCode with
        | none => rfl
        | some code => simp [setTimeBlockDoc_idem]
    · rw [hview1]
      have : (view.map (fun x => if x.id = b.id then stamp else x)).map (fun x => x.id) =
          view.map (fun x => x.id) := by
        rw [List.map_map]
        refine List.map_congr_left (fun x _ => ?_)
        by_cases hid : x.id = b.id <;> simp [hid, hstamp_id]
      rw [this]
      exact hnd
  · -- append branch
    have hview1 : (Ctx.updateTimeBlock b w).app.data.timeBlocks = view ++ [stamp] := by
      rw [hshape]
      show (if (view.any fun x => decide (x.id = b.id)) = true then
          view.map (fun x => if x.id = b.id then stamp else x) else view ++ [stamp]) =
        view ++ [stamp]
      rw [if_neg hany]
    have hnotin : ∀ x ∈ view, ¬ (x.id = b.id) := by
      intro x hx hid
      exact (List.any_eq_false.mp (Bool.eq_false_iff.mpr hany) x hx) (by simp [hid])
    refine ⟨?_, rfl, rfl, ?_, ?_⟩
    · rw [DailyView.viewBlockAt, hview1, find?_filter_filter]
      refine find?_eq_some_of_all _ _ _ ⟨stamp, by simp, hpred_stamp⟩ ?_
      intro y hy hpy
      rcases List.mem_append.mp hy with hy' | hy'
      · exfalso
        simp only [Bool.and_eq_true, decide_eq_true_eq] at hpy
        exact hnotin y hy' (huniq y hy' hpy.1.1 hpy.2 hpy.1.2)
      · simpa using hy'
    · have hu1 : (Ctx.updateTimeBlock b w).app.currentUser = some u := by
        rw [hshape]; exact hu
      rw [updateTimeBlock_unfold b _ u hu1, hshape]
      have hany1 : (view ++ [stamp]).any (fun x => x.id = b.id) = true := by
        refine List.any_eq_true.mpr ⟨stamp, by simp, by simp [hstamp_id]⟩
      simp only [hany, if_false, hany1, if_true]
      refine congrArg₂ World.mk ?_ ?_
      · have hmap : (view ++ [stamp]).map (fun x => if x.id = b.id then stamp else x) =
            view ++ [stamp] := by
          rw [List.map_append]
          have h1 : view.map (fun x => if x.id = b.id then stamp else x) = view :=
            calc view.map (fun x => if x.id = b.id then stamp else x)
                = view.map id := List.map_congr_left (fun x hx => by simp [hnotin x hx])
              _ = view := List.map_id _
          have h2 : [stamp].map (fun x => if x.id = b.id then stamp else x) = [stamp] := by
            simp [hstamp_id]
          rw [h1, h2]
        simp [hmap, updateTimeBlock_store_idem]
        exact fun _ => hstamp_id
      · cases hrc : w.app.roomCode with
        | none => rfl
        | some code => simp [setTimeBlockDoc_idem]
    · rw [hview1, List.map_append]
      simp only [List.map_cons, List.map_nil, hstamp_id]
      refine List.Nodup.append hnd (List.nodup_singleton _) ?_
      intro a ha hb
      simp only [List.mem_singleton] at hb
      subst hb
      obtain ⟨x, hx, hxid⟩ := List.mem_map.mp ha
      exact hnotin x hx hxid

/-- Witness for C5 at a concrete write into an empty view. -/
theorem C5_witness :
    DailyView.viewBlockAt (Ctx.updateTimeBlock blockOtherOwner soloWorld).app.data
        blockOtherOwner.date userA.id blockOtherOwner.hour =
      some (Ctx.stampTimeBlock userA blockOtherOwner) ∧
    (Ctx.stampTimeBlock userA blockOtherOwner).note = blockOtherOwner.note ∧
    (Ctx.stampTimeBlock userA blockOtherOwner).categoryId = blockOtherOwner.categoryId ∧
    Ctx.updateTimeBlock blockOtherOwner (Ctx.updateTimeBlock blockOtherOwner soloWorld) =
      Ctx.updateTimeBlock blockOtherOwner soloWorld ∧
    ((Ctx.updateTimeBlock blockOtherOwner soloWorld).app.data.timeBlocks.map
      (fun x => x.id)).Nodup :=
  C5_optimistic_read_idempotent soloWorld blockOtherOwner userA rfl
    (by simp [soloWorld, emptyCalendarData]) (by simp [soloWorld, emptyCalendarData])

/-! # Order-assignment lemmas (claim C8) -/

theorem length_insertByOrderTodo (t : Todo) (l : List Todo) :
    (insertByOrderTodo t l).length = l.length + 1 := by
  induction l with
  | nil => rfl
  | cons x xs ih =>
    rw [insertByOrderTodo]
    by_cases hx : x.order < t.order <;> simp [hx, ih]

theorem length_sortTodosByOrder (l : List Todo) : (sortTodosByOrder l).length = l.length := by
  induction l with
  | nil => rfl
  | cons t ts ih =>
    rw [sortTodosByOrder, length_insertByOrderTodo, ih]
    simp

theorem length_insertByOrderGoal (g : WeeklyGoal) (l : List WeeklyGoal) :
    (insertByOrderGoal g l).length = l.length + 1 := by
  induction l with
  | nil => rfl
  | cons x xs ih =>
    rw [insertByOrderGoal]
    by_cases hx : x.order < g.order <;> simp [hx, ih]

theorem length_sortGoalsByOrder (l : List WeeklyGoal) :
    (sortGoalsByOrder l).length = l.length := by
  induction l with
  | nil => rfl
  | cons g gs ih =>
    rw [sortGoalsByOrder, length_insertByOrderGoal, ih]
    simp

theorem handleAddTodo_unfold (tx d : String) (w : World) (u : User)
    (hu : w.app.currentUser = some u) (hne : (jsTrim tx).isEmpty = false) :
    (DailyView.handleAddTodo tx d w).app.data.todos =
      w.app.data.todos ++ [Ctx.stampTodo u
        { id := genId w.app.nextId, date := d, text := jsTrim tx, completed := false,
          order := ((todosForDate w.app.data d).length : Int) }] ∧
    (DailyView.handleAddTodo tx d w).app.currentUser = some u := by
  rw [DailyView.handleAddTodo]
  simp only [hne, Bool.false_eq_true, if_false]
  constructor <;> simp [Ctx.addTodo, hu]

theorem handleAddGoal_unfold (tx ws : String) (w : World) (u : User)
    (hu : w.app.currentUser = some u) (hne : (jsTrim tx).isEmpty = false) :
    (WeeklyView.handleAddGoal tx ws w).app.data.weeklyGoals =
      w.app.data.weeklyGoals ++ [Ctx.stampWeeklyGoal u
        { id := genId w.app.nextId, weekStart := ws, text := jsTrim tx, completed := false,
          order := ((goalsForWeek w.app.data ws).length : Int) }] ∧
    (WeeklyView.handleAddGoal tx ws w).app.currentUser = some u := by
  rw [WeeklyView.handleAddGoal]
  simp only [hne, Bool.false_eq_true, if_false]
  constructor <;> simp [Ctx.addWeeklyGoal, hu]

theorem addTodosLoop_spec (d : String) (u : User) :
    ∀ (texts : List String) (w : World),
      w.app.currentUser = some u →
      (∀ tx ∈ texts, (jsTrim tx).isEmpty = false) →
      ∃ newTodos : List Todo,
        (addTodosLoop texts d w).app.data.todos = w.app.data.todos ++ newTodos ∧
        (addTodosLoop texts d w).app.currentUser = some u ∧
        (∀ t ∈ newTodos, t.date = d) ∧
        newTodos.map (fun t => t.order) =
          (List.range texts.length).map
            (fun i : Nat =>
              (((w.app.data.todos.filter (fun t => t.date = d)).length : Int) + (i : Int))) := by
  intro texts
  induction texts with
  | nil =>
    intro w hu _
    exact ⟨[], by simp [addTodosLoop], by simpa [addTodosLoop] using hu, by simp, by simp⟩
  | cons tx rest ih =>
    intro w hu hne
    have hstep := handleAddTodo_unfold tx d w u hu (hne tx (by simp))
    set t0 := Ctx.stampTodo u
      { id := genId w.app.nextId, date := d, text := jsTrim tx, completed := false,
        order := ((todosForDate w.app.data d).length : Int) } with ht0
    have hloop : addTodosLoop (tx :: rest) d w =
        addTodosLoop rest d (DailyView.handleAddTodo tx d w) := by
      simp [addTodosLoop]
    obtain ⟨ns, hns1, hns2, hns3, hns4⟩ :=
      ih (DailyView.handleAddTodo tx d w) hstep.2 (fun x hx => hne x (by simp [hx]))
    refine ⟨t0 :: ns, ?_, ?_, ?_, ?_⟩
    · rw [hloop, hns1, hstep.1, List.append_assoc]
      rfl
    · rw [hloop]; exact hns2
    · intro t ht
      rcases List.mem_cons.mp ht with rfl | ht'
      · rfl
      · exact hns3 t ht'
    · have hcount : ((DailyView.handleAddTodo tx d w).app.data.todos.filter
          (fun t => t.date = d)).length =
          (w.app.data.todos.filter (fun t => t.date = d)).length + 1 := by
        rw [hstep.1, List.filter_append]
        simp [ht0, Ctx.stampTodo]
      have hord : t0.order = ((w.app.data.todos.filter (fun t => t.date = d)).length : Int) := by
        simp [ht0, Ctx.stampTodo, todosForDate, length_sortTodosByOrder]
      rw [List.map_cons, hns4, hcount, hord, List.length_cons, List.range_succ_eq_map,
        List.map_cons, List.map_map]
      refine congrArg₂ List.cons (by simp) ?_
      refine List.map_congr_left (fun i _ => ?_)
      simp [Function.comp]
      ring

theorem addGoalsLoop_spec (ws : String) (u : User) :
    ∀ (texts : List String) (w : World),
      w.app.currentUser = some u →
      (∀ tx ∈ texts, (jsTrim tx).isEmpty = false) →
      ∃ newGoals : List WeeklyGoal,
        (addGoalsLoop texts ws w).app.data.weeklyGoals = w.app.data.weeklyGoals ++ newGoals ∧
        (addGoalsLoop texts ws w).app.currentUser = some u ∧
        (∀ g ∈ newGoals, g.weekStart = ws) ∧
        newGoals.map (fun g => g.order) =
          (List.range texts.length).map
            (fun i : Nat => (((w.app.data.weeklyGoals.filter
              (fun g => g.weekStart = ws)).length : Int) + (i : Int))) := by
  intro texts
  induction texts with
  | nil =>
    intro w hu _
    exact ⟨[], by simp [addGoalsLoop], by simpa [addGoalsLoop] using hu, by simp, by simp⟩
  | cons tx rest ih =>
    intro w hu hne
    have hstep := handleAddGoal_unfold tx ws w u hu (hne tx (by simp))
    set g0 := Ctx.stampWeeklyGoal u
      { id := genId w.app.nextId, weekStart := ws, text := jsTrim tx, completed := false,
        order := ((goalsForWeek w.app.data ws).length : Int) } with hg0
    have hloop : addGoalsLoop (tx :: rest) ws w =
        addGoalsLoop rest ws (WeeklyView.handleAddGoal tx ws w) := by
      simp [addGoalsLoop]
    obtain ⟨ns, hns1, hns2, hns3, hns4⟩ :=
      ih (WeeklyView.handleAddGoal tx ws w) hstep.2 (fun x hx => hne x (by simp [hx]))
    refine ⟨g0 :: ns, ?_, ?_, ?_, ?_⟩
    · rw [hloop, hns1, hstep.1, List.append_assoc]
      rfl
    · rw [hloop]; exact hns2
    · intro g hg
      rcases List.mem_cons.mp hg with rfl | hg'
      · rfl
      · exact hns3 g hg'
    · have hcount : ((WeeklyView.handleAddGoal tx ws w).app.data.weeklyGoals.filter
          (fun g => g.weekStart = ws)).length =
          (w.app.data.weeklyGoals.filter (fun g => g.weekStart = ws)).length + 1 := by
        rw [hstep.1, List.filter_append]
        simp [hg0, Ctx.stampWeeklyGoal]
      have hord : g0.order =
          ((w.app.data.weeklyGoals.filter (fun g => g.weekStart = ws)).length : Int) := by
        simp [hg0, Ctx.stampWeeklyGoal, goalsForWeek, length_sortGoalsByOrder]
      rw [List.map_cons, hns4, hcount, hord, List.length_cons, List.range_succ_eq_map,
        List.map_cons, List.map_map]
      refine congrArg₂ List.cons (by simp) ?_
      refine List.map_congr_left (fun i _ => ?_)
      simp [Function.comp]
      ring

/-- Claim C8 counterexample: after adding todos `a`, `b`, `c` (orders 0, 1,
2) and deleting `a` and `b`, the scope for the date has one todo (`c`, order
2) — adding `d` then assigns order 1 (the current count), so the newly added
todo sorts before the already present `c` instead of landing at the tail. -/
theorem C8_counterexample :
    (todosForDate
        (addTodosLoop ["d"] "2025-01-15"
          (Ctx.deleteTodo (genId 1)
            (Ctx.deleteTodo (genId 0)
              (addTodosLoop ["a", "b", "c"] "2025-01-15" soloWorld)))).app.data
        "2025-01-15").map (fun t => (t.text, t.order)) = [("d", 1), ("c", 2)] ∧
    ((todosForDate
        (addTodosLoop ["d"] "2025-01-15"
          (Ctx.deleteTodo (genId 1)
            (Ctx.deleteTodo (genId 0)
              (addTodosLoop ["a", "b", "c"] "2025-01-15" soloWorld)))).app.data
        "2025-01-15").getLast?).map (fun t => t.text) = some "c" := by decide

/-- Claim C8 (amended): N consecutive adds in a (date) scope for Todos or a
(weekStart) scope for WeeklyGoals each assign `order` equal to the current
count of the scope, so the assigned orders are the strictly increasing run
`count, count+1, …`; every new item sorts after all previously present
items of its scope exactly when all pre-existing orders in the scope are
below the scope count (in particular from an empty or purely add-built
scope), but a stale larger order can sort above a newly added item. -/
theorem C8_order_assignment (w : World) (u : User) (d ws : String)
    (texts gtexts : List String)
    (hu : w.app.currentUser = some u)
    (ht : ∀ tx ∈ texts, (jsTrim tx).isEmpty = false)
    (hg : ∀ tx ∈ gtexts, (jsTrim tx).isEmpty = false) :
    (∃ newTodos : List Todo,
      (addTodosLoop texts d w).app.data.todos = w.app.data.todos ++ newTodos ∧
      (∀ t ∈ newTodos, t.date = d) ∧
      newTodos.map (fun t => t.order) =
        (List.range texts.length).map
          (fun i : Nat =>
            (((w.app.data.todos.filter (fun t => t.date = d)).length : Int) + (i : Int))) ∧
      (newTodos.map (fun t => t.order)).Pairwise (· < ·) ∧
      ((∀ t ∈ w.app.data.todos, t.date = d →
          t.order < ((w.app.data.todos.filter (fun t => t.date = d)).length : Int)) →
        ∀ tn ∈ newTodos, ∀ told ∈ w.app.data.todos, told.date = d →
          told.order < tn.order)) ∧
    (∃ newGoals : List WeeklyGoal,
      (addGoalsLoop gtexts ws w).app.data.weeklyGoals = w.app.data.weeklyGoals ++ newGoals ∧
      (∀ g ∈ newGoals, g.weekStart = ws) ∧
      newGoals.map (fun g => g.order) =
        (List.range gtexts.length).map
          (fun i : Nat =>
            (((w.app.data.weeklyGoals.filter (fun g => g.weekStart = ws)).length : Int) +
              (i : Int))) ∧
      (newGoals.map (fun g => g.order)).Pairwise (· < ·) ∧
      ((∀ g ∈ w.app.data.weeklyGoals, g.weekStart = ws →
          g.order < ((w.app.data.weeklyGoals.filter (fun g => g.weekStart = ws)).length : Int)) →
        ∀ gn ∈ newGoals, ∀ gold ∈ w.app.data.weeklyGoals, gold.weekStart = ws →
          gold.order < gn.order)) := by
  constructor
  · obtain ⟨ns, h1, _, h3, h4⟩ := addTodosLoop_spec d u texts w hu ht
    set k := ((w.app.data.todos.filter (fun t => t.date = d)).length : Int) with hk
    have hge : ∀ tn ∈ ns, k ≤ tn.order := by
      intro tn htn
      have : tn.order ∈ ns.map (fun t => t.order) := List.mem_map.mpr ⟨tn, htn, rfl⟩
      rw [h4] at this
      obtain ⟨i, _, hi⟩ := List.mem_map.mp this
      omega
    refine ⟨ns, h1, h3, h4, ?_, ?_⟩
    · rw [h4]
      refine List.Pairwise.map _ (fun a b hab => ?_) (List.pairwise_lt_range _)
      omega
    · intro hlt tn htn told htold htdate
      exact lt_of_lt_of_le (hlt told htold htdate) (hge tn htn)
  · obtain ⟨ns, h1, _, h3, h4⟩ := addGoalsLoop_spec ws u gtexts w hu hg
    set k := ((w.app.data.weeklyGoals.filter (fun g => g.weekStart = ws)).length : Int) with hk
    have hge : ∀ gn ∈ ns, k ≤ gn.order := by
      intro gn hgn
      have : gn.order ∈ ns.map (fun g => g.order) := List.mem_map.mpr ⟨gn, hgn, rfl⟩
      rw [h4] at this
      obtain ⟨i, _, hi⟩ := List.mem_map.mp this
      omega
    refine ⟨ns, h1, h3, h4, ?_, ?_⟩
    · rw [h4]
      refine List.Pairwise.map _ (fun a b hab => ?_) (List.pairwise_lt_range _)
      omega
    · intro hlt gn hgn gold hgold hgdate
      exact lt_of_lt_of_le (hlt gold hgold hgdate) (hge gn hgn)

/-- Witness for the amended C8 at one add into an empty scope. -/
theorem C8_witness :
    (∃ newTodos : List Todo,
      (addTodosLoop ["a"] "2025-01-15" soloWorld).app.data.todos =
        soloWorld.app.data.todos ++ newTodos ∧
      (∀ t ∈ newTodos, t.date = "2025-01-15") ∧
      newTodos.map (fun t => t.order) =
        (List.range (["a"] : List String).length).map
          (fun i : Nat =>
            (((soloWorld.app.data.todos.filter
              (fun t => t.date = "2025-01-15")).length : Int) + (i : Int))) ∧
      (newTodos.map (fun t => t.order)).Pairwise (· < ·) ∧
      ((∀ t ∈ soloWorld.app.data.todos, t.date = "2025-01-15" →
          t.order < ((soloWorld.app.data.todos.filter
            (fun t => t.date = "2025-01-15")).length : Int)) →
        ∀ tn ∈ newTodos, ∀ told ∈ soloWorld.app.data.todos, told.date = "2025-01-15" →
          told.order < tn.order)) ∧
    (∃ newGoals : List WeeklyGoal,
      (addGoalsLoop ["g"] "2025-01-13" soloWorld).app.data.weeklyGoals =
        soloWorld.app.data.weeklyGoals ++ newGoals ∧
      (∀ g ∈ newGoals, g.weekStart = "2025-01-13") ∧
      newGoals.map (fun g => g.order) =
        (List.range (["g"] : List String).length).map
          (fun i : Nat =>
            (((soloWorld.app.data.weeklyGoals.filter
              (fun g => g.weekStart = "2025-01-13")).length : Int) + (i : Int))) ∧
      (newGoals.map (fun g => g.order)).Pairwise (· < ·) ∧
      ((∀ g ∈ soloWorld.app.data.weeklyGoals, g.weekStart = "2025-01-13" →
          g.order < ((soloWorld.app.data.weeklyGoals.filter
            (fun g => g.weekStart = "2025-01-13")).length : Int)) →
        ∀ gn ∈ newGoals, ∀ gold ∈ soloWorld.app.data.weeklyGoals, gold.weekStart = "2025-01-13" →
          gold.order < gn.order)) :=
  C8_order_assignment soloWorld userA "2025-01-15" "2025-01-13" ["a"] ["g"] rfl
    (by decide) (by decide)

/-- Claim C4 counterexample: deleting user A's event (time `10:00~11:00`)
clears the first TimeBlock found at `(date, slot)` with no owner filter —
here user B's block at slot 20 is cleared (and restamped as A) even though
its owner differs from the event's owner. -/
theorem C4_counterexample :
    eventA.userId = some "userA" ∧ blockOtherOwner.userId = some "userB" ∧
    ¬ ("userB" = "userA") ∧
    (MonthlyView.handleDeleteEvent "e1" worldC4).app.data.timeBlocks.map
        (fun b => (b.id, b.note, b.categoryId)) = [("b1", "", none)] ∧
    (MonthlyView.handleDeleteEvent "e1" worldC4).app.data.events = [] := by decide

/-! # Event-deletion clearing lemmas (claim C4) -/

theorem updateTimeBlock_components (b : TimeBlock) (w : World) (u : User)
    (hu : w.app.currentUser = some u) :
    (Ctx.updateTimeBlock b w).app.currentUser = w.app.currentUser ∧
    (Ctx.updateTimeBlock b w).app.roomCode = w.app.roomCode ∧
    (Ctx.updateTimeBlock b w).app.data.events = w.app.data.events := by
  rw [updateTimeBlock_unfold b w u hu]
  exact ⟨rfl, rfl, rfl⟩

theorem updateTimeBlock_view_replace (b : TimeBlock) (w : World) (u : User)
    (hu : w.app.currentUser = some u)
    (hmem : w.app.data.timeBlocks.any (fun x => x.id = b.id) = true) :
    (Ctx.updateTimeBlock b w).app.data.timeBlocks =
      w.app.data.timeBlocks.map
        (fun x => if x.id = b.id then Ctx.stampTimeBlock u b else x) := by
  rw [updateTimeBlock_unfold b w u hu]
  show (if (w.app.data.timeBlocks.any fun x => decide (x.id = b.id)) = true then
      w.app.data.timeBlocks.map
        (fun x => if x.id = b.id then Ctx.stampTimeBlock u b else x)
    else w.app.data.timeBlocks ++ [Ctx.stampTimeBlock u b]) =
    w.app.data.timeBlocks.map (fun x => if x.id = b.id then Ctx.stampTimeBlock u b else x)
  rw [if_pos hmem]

/-- Invariant of `handleDeleteEvent`'s clearing loop: the finds run over the
snapshot captured at entry; each found block's id is replaced in the live
view by its cleared-and-restamped record. -/
theorem clearLoop_spec (u : User) (snapshot : List TimeBlock) (date : String) :
    ∀ (slots : List Int) (w : World) (g : TimeBlock → TimeBlock),
      w.app.currentUser = some u →
      (∀ x, (g x).id = x.id) →
      w.app.data.timeBlocks = snapshot.map g →
      (snapshot.map (fun x => x.id)).Nodup →
      ((slots.foldl (fun acc slot =>
          match snapshot.find? (fun b => b.date = date && b.hour = slot) with
          | some existingBlock =>
            Ctx.updateTimeBlock { existingBlock with note := "", categoryId := none } acc
          | none => acc) w).app.data.timeBlocks =
        snapshot.map (fun x =>
          if x.id ∈ slots.filterMap (fun slot =>
              (snapshot.find? (fun b => b.date = date && b.hour = slot)).map
                (fun b => b.id)) then
            clearStamp u x
          else g x)) ∧
      (slots.foldl (fun acc slot =>
          match snapshot.find? (fun b => b.date = date && b.hour = slot) with
          | some existingBlock =>
            Ctx.updateTimeBlock { existingBlock with note := "", categoryId := none } acc
          | none => acc) w).app.currentUser = some u ∧
      (slots.foldl (fun acc slot =>
          match snapshot.find? (fun b => b.date = date && b.hour = slot) with
          | some existingBlock =>
            Ctx.updateTimeBlock { existingBlock with note := "", categoryId := none } acc
          | none => acc) w).app.data.events = w.app.data.events := by
  intro slots
  induction slots with
  | nil =>
    intro w g hu hgid hview _
    refine ⟨?_, hu, rfl⟩
    simp only [List.foldl_nil, List.filterMap_nil, List.not_mem_nil, if_false]
    exact hview
  | cons s rest ih =>
    intro w g hu hgid hview hnd
    cases hfind : snapshot.find? (fun b => b.date = date && b.hour = s) with
    | none =>
      have hfold : ∀ (w' : World), (s :: rest).foldl (fun acc slot =>
          match snapshot.find? (fun b => b.date = date && b.hour = slot) with
          | some existingBlock =>
            Ctx.updateTimeBlock { existingBlock with note := "", categoryId := none } acc
          | none => acc) w' =
          rest.foldl (fun acc slot =>
            match snapshot.find? (fun b => b.date = date && b.hour = slot) with
            | some existingBlock =>
              Ctx.updateTimeBlock { existingBlock with note := "", categoryId := none } acc
            | none => acc) w' := by
        intro w'
        rw [List.foldl_cons, hfind]
      rw [hfold]
      have hids : (s :: rest).filterMap (fun slot =>
          (snapshot.find? (fun b => b.date = date && b.hour = slot)).map (fun b => b.id)) =
          rest.filterMap (fun slot =>
            (snapshot.find? (fun b => b.date = date && b.hour = slot)).map (fun b => b.id)) := by
        rw [List.filterMap_cons, hfind]
        rfl
      rw [hids]
      exact ih w g hu hgid hview hnd
    | some b =>
      have hb_mem : b ∈ snapshot := List.mem_of_find?_eq_some hfind
      have hb_cleared_id : ({ b with note := "", categoryId := none } : TimeBlock).id = b.id :=
        rfl
      have hany : w.app.data.timeBlocks.any
          (fun x => x.id = ({ b with note := "", categoryId := none } : TimeBlock).id) = true := by
        rw [hview]
        refine List.any_eq_true.mpr ⟨g b, List.mem_map.mpr ⟨b, hb_mem, rfl⟩, ?_⟩
        simp [hgid b]
      have hstep := updateTimeBlock_view_replace
        { b with note := "", categoryId := none } w u hu hany
      have hcomp := updateTimeBlock_components
        { b with note := "", categoryId := none } w u hu
      set w1 := Ctx.updateTimeBlock { b with note := "", categoryId := none } w with hw1
      have hfold : (s :: rest).foldl (fun acc slot =>
          match snapshot.find? (fun b => b.date = date && b.hour = slot) with
          | some existingBlock =>
            Ctx.updateTimeBlock { existingBlock with note := "", categoryId := none } acc
          | none => acc) w =
          rest.foldl (fun acc slot =>
            match snapshot.find? (fun b => b.date = date && b.hour = slot) with
            | some existingBlock =>
              Ctx.updateTimeBlock { existingBlock with note := "", categoryId := none } acc
            | none => acc) w1 := by
        rw [List.foldl_cons, hfind]
      have hg1id : ∀ x, ((fun x => if x.id = b.id then clearStamp u x else g x) x).id = x.id := by
        intro x
        by_cases hx : x.id = b.id
        · simp [hx, clearStamp, Ctx.stampTimeBlock]
        · simp [hx, hgid x]
      have hview1 : w1.app.data.timeBlocks =
          snapshot.map (fun x => if x.id = b.id then clearStamp u x else g x) := by
        rw [hw1, hstep, hview, List.map_map]
        refine List.map_congr_left (fun x hx => ?_)
        simp only [Function.comp]
        by_cases hid : x.id = b.id
        · have hxb : x = b := List.inj_on_of_nodup_map hnd hx hb_mem hid
          subst hxb
          simp [hgid x, hid, clearStamp]
        · simp [hgid x, hid]
      have hu1 : w1.app.currentUser = some u := by rw [hcomp.1]; exact hu
      obtain ⟨hres1, hres2, hres3⟩ := ih w1 _ hu1 hg1id hview1 hnd
      rw [hfold]
      refine ⟨?_, hres2, by rw [hres3, hw1, hcomp.2.2]⟩
      rw [hres1]
      have hids : (s :: rest).filterMap (fun slot =>
          (snapshot.find? (fun b => b.date = date && b.hour = slot)).map (fun b => b.id)) =
          b.id :: rest.filterMap (fun slot =>
            (snapshot.find? (fun b => b.date = date && b.hour = slot)).map (fun b => b.id)) := by
        rw [List.filterMap_cons, hfind]
        rfl
      rw [hids]
      refine List.map_congr_left (fun x _ => ?_)
      by_cases hin : x.id ∈ rest.filterMap (fun slot =>
          (snapshot.find? (fun b => b.date = date && b.hour = slot)).map (fun b => b.id))
      · simp [hin]
      · by_cases hid : x.id = b.id
        · simp [hin, hid]
        · simp [hin, hid]

theorem deleteEvent_components (id : String) (w : World) :
    (Ctx.deleteEvent id w).app.data.timeBlocks = w.app.data.timeBlocks ∧
    (Ctx.deleteEvent id w).app.data.events =
      w.app.data.events.filter (fun e => ¬ (e.id = id)) := by
  exact ⟨rfl, rfl⟩

/-- Claim C4 (amended): deleting an Event whose time parses as
`HH:MM~HH:MM` clears (note := "", categoryId := null, restamped by the
acting user) exactly the first TimeBlock of the captured view found at
`(event.date, slot)` for each slot in `[start, stop)` — with no owner
filter — deleting no TimeBlock row, and then deletes the Event; when the
time is absent or unparseable only the Event is deleted. -/
theorem C4_delete_event_clearing (w : World) (u : User) (eid : String) (ev : Event)
    (hu : w.app.currentUser = some u)
    (hnd : (w.app.data.timeBlocks.map (fun x => x.id)).Nodup)
    (hev : w.app.data.events.find? (fun e => e.id = eid) = some ev) :
    (∀ (t : String) (r : EventRange), ev.time = some t → parseEventTime t = some r →
      (MonthlyView.handleDeleteEvent eid w).app.data.timeBlocks =
        w.app.data.timeBlocks.map (fun x =>
          if x.id ∈ foundIds w.app.data.timeBlocks ev.date r then clearStamp u x else x) ∧
      (MonthlyView.handleDeleteEvent eid w).app.data.timeBlocks.length =
        w.app.data.timeBlocks.length ∧
      (MonthlyView.handleDeleteEvent eid w).app.data.events =
        w.app.data.events.filter (fun e => ¬ (e.id = eid))) ∧
    ((ev.time = none ∨ ∃ t, ev.time = some t ∧ parseEventTime t = none) →
      (MonthlyView.handleDeleteEvent eid w).app.data.timeBlocks = w.app.data.timeBlocks ∧
      (MonthlyView.handleDeleteEvent eid w).app.data.events =
        w.app.data.events.filter (fun e => ¬ (e.id = eid))) := by
  constructor
  · intro t r htime hparse
    have hshape : MonthlyView.handleDeleteEvent eid w =
        Ctx.deleteEvent eid ((slotRange r.start r.stop).foldl (fun acc slot =>
          match w.app.data.timeBlocks.find? (fun b => b.date = ev.date && b.hour = slot) with
          | some existingBlock =>
            Ctx.updateTimeBlock { existingBlock with note := "", categoryId := none } acc
          | none => acc) w) := by
      rw [MonthlyView.handleDeleteEvent, hev]
      simp only [htime, hparse]
    obtain ⟨h1, _, h3⟩ := clearLoop_spec u w.app.data.timeBlocks ev.date
      (slotRange r.start r.stop) w id hu (fun _ => rfl) (List.map_id _).symm hnd
    rw [hshape]
    obtain ⟨hd1, hd2⟩ := deleteEvent_components eid _
    refine ⟨?_, ?_, ?_⟩
    · rw [hd1, h1]
      rfl
    · rw [hd1, h1, List.length_map]
    · rw [hd2, h3]
  · intro hcase
    have hshape : MonthlyView.handleDeleteEvent eid w = Ctx.deleteEvent eid w := by
      rw [MonthlyView.handleDeleteEvent, hev]
      rcases hcase with hnone | ⟨t, htime, hparse⟩
      · simp only [hnone]
      · simp only [htime, hparse]
    rw [hshape]
    exact deleteEvent_components eid w

/-- Witness for the amended C4 at the concrete `worldC4` scenario. -/
theorem C4_witness :
    (MonthlyView.handleDeleteEvent "e1" worldC4).app.data.timeBlocks =
      worldC4.app.data.timeBlocks.map (fun x =>
        if x.id ∈ foundIds worldC4.app.data.timeBlocks eventA.date ⟨20, 22⟩ then
          clearStamp userA x
        else x) ∧
    (MonthlyView.handleDeleteEvent "e1" worldC4).app.data.timeBlocks.length =
      worldC4.app.data.timeBlocks.length ∧
    (MonthlyView.handleDeleteEvent "e1" worldC4).app.data.events =
      worldC4.app.data.events.filter (fun e => ¬ (e.id = "e1")) :=
  (C4_delete_event_clearing worldC4 userA "e1" eventA rfl (by decide) (by decide)).1
    "10:00~11:00" ⟨20, 22⟩ rfl (by decide)

end Scheduler
